import Mathlib

/-!
Shallow embedding of the Samsung SRW v3 decompressor
(SrwDecoder::decodeCompressed3 in src/librawspeed/decoders/SrwDecoder.cpp)
and proofs about it.

The bit reader (BitPumpMSB32) and clampBits live outside the given sources;
they are modelled from the specification: an MSB-first bit extractor over a
byte buffer, read(n) returning the next n bits with the first-read bit most
significant, position() returning the byte offset of the next unread bit
rounded down, failing when a read would pass the end of the buffer; clampBits
clamps an integer to the interval from 0 to 2^bits - 1.

Machine integers are modelled as Nat or Int; the one place where unsigned
32-bit wrap-around matters (the decrement of a diffBitsMode context value)
carries an explicit mod 2^32.
-/

set_option maxRecDepth 100000

namespace SrwV3

/-- Decode errors of the v3 path. -/
inductive DecodeError where
  | truncated
  | badDimensions
  | corruptMotion
  | corruptRefRow
  | corruptDiffBits
deriving Repr, DecidableEq

/-- Modelled from the spec: the cursor of the MSB-first bit reader
(BitPumpMSB32): a byte base into the buffer plus a bit position relative to
that base.  The data itself is passed separately, as the C++ reader holds a
reference to the file buffer. -/
structure Pump where
  base : Nat
  pos : Nat
deriving Repr, DecidableEq

/-- The bit of the buffer at absolute bit index j (MSB-first within bytes);
false past the end. -/
def bitAt (data : List Bool) (j : Nat) : Bool := data.getD j false

/-- Modelled from the spec: the value of n bits starting at absolute bit
index start, first bit most significant. -/
def readVal (data : List Bool) (start : Nat) : Nat → Nat
  | 0 => 0
  | n + 1 => 2 * readVal data start n + (if bitAt data (start + n) then 1 else 0)

/-- Modelled from the spec: BitPumpMSB32 getBits: consume n bits, failing
when the read would pass the end of the buffer. -/
def getBits (data : List Bool) (p : Pump) (n : Nat) : Except DecodeError (Nat × Pump) :=
  if 8 * p.base + p.pos + n ≤ data.length then
    .ok (readVal data (8 * p.base + p.pos) n, ⟨p.base, p.pos + n⟩)
  else .error .truncated

/-- The bits of one byte, most significant first. -/
def bitsOfByte (b : Nat) : List Bool :=
  (List.range 8).map (fun k => ((b >>> (7 - k)) % 2 == 1))

/-- A byte buffer as a bit list, MSB-first within each byte. -/
def bitsOfBytes (l : List Nat) : List Bool := (l.map bitsOfByte).flatten

/-- Modelled from the spec: clampBits v b = min (max v 0) (2^b - 1). -/
def clampBits (x : Int) (n : Nat) : Nat := (min (max x 0) (2 ^ n - 1)).toNat

/-- Line 287 of SrwDecoder.cpp: diff = diff * (scale*2+1) + scale. -/
def reconstruct (scale diff : Int) : Int := diff * (scale * 2 + 1) + scale

/-- Line 195 of SrwDecoder.cpp: the three scale increments. -/
def scalevals : List Int := [0, -2, 2]

/-- Lines 282-285 of SrwDecoder.cpp: the pixel index inside the 16-pixel
block that residual i is written to. -/
def targetIndex (row i : Nat) : Nat :=
  if row % 2 ≠ 0 then ((i &&& 7) <<< 1) + 1 - (i >>> 3)
  else ((i &&& 7) <<< 1) + (i >>> 3)

/-- Lines 176-178 of SrwDecoder.cpp: align a line offset up to the next
16-byte boundary. -/
def alignTo16 (lo : Nat) : Nat :=
  if lo &&& 15 ≠ 0 then lo + (16 - (lo &&& 15)) else lo

/-- Line 218 of SrwDecoder.cpp: motionOffset. -/
def motionOffset : List Int := [-4, -2, -2, 0, 0, 2, 4]

/-- Line 219 of SrwDecoder.cpp: motionDoAverage. -/
def motionDoAverage : List Nat := [0, 0, 1, 0, 1, 0, 0]

/-- Header fields that the decoder actually uses. -/
structure Header where
  bitDepth : Nat
  width : Nat
  height : Nat
  optflags : Nat
  initVal : Nat
deriving Repr, DecidableEq

/-- Lines 135-156 of SrwDecoder.cpp: the fixed-layout header reads. -/
def decodeHeader (data : List Bool) (p : Pump) : Except DecodeError (Header × Pump) := do
  let (_, p) ← getBits data p 16   -- NLCVersion
  let (_, p) ← getBits data p 4    -- ImgFormat
  let (bd, p) ← getBits data p 4   -- bitDepth, stored as value - 1
  let (_, p) ← getBits data p 4    -- NumBlkInRCUnit
  let (_, p) ← getBits data p 4    -- CompressionRatio
  let (w, p) ← getBits data p 16   -- width
  let (h, p) ← getBits data p 16   -- height
  let (_, p) ← getBits data p 16   -- TileWidth
  let (_, p) ← getBits data p 4    -- reserved
  let (fl, p) ← getBits data p 4   -- optflags
  let (_, p) ← getBits data p 8    -- OverlapWidth
  let (_, p) ← getBits data p 8    -- reserved
  let (_, p) ← getBits data p 8    -- Inc
  let (_, p) ← getBits data p 2    -- reserved
  let (iv, p) ← getBits data p 14  -- initVal
  .ok (⟨bd + 1, w, h, fl, iv⟩, p)

/-- Lines 193-198 of SrwDecoder.cpp: the per-block scale update, active only
when OPT_QP is unset and the column is a multiple of 64. -/
def updateScale (data : List Bool) (optflags col : Nat) (scale : Int) (p : Pump) :
    Except DecodeError (Int × Pump) :=
  if optflags &&& 4 = 0 ∧ col &&& 63 = 0 then do
    let (i, p₁) ← getBits data p 2
    if i < 3 then .ok (scale + scalevals.getD i 0, p₁)
    else do
      let (v, p₂) ← getBits data p₁ 12
      .ok ((v : Int), p₂)
  else .ok (scale, p)

/-- Lines 201-204 of SrwDecoder.cpp: reference-selection (motion) read. -/
def readMotion (data : List Bool) (optflags motion : Nat) (p : Pump) :
    Except DecodeError (Nat × Pump) :=
  if optflags &&& 2 ≠ 0 then do
    let (b, p₁) ← getBits data p 1
    .ok (if b ≠ 0 then 3 else 7, p₁)
  else do
    let (b, p₁) ← getBits data p 1
    if b = 0 then getBits data p₁ 3
    else .ok (motion, p₁)

/-- Lines 207-211 of SrwDecoder.cpp: the motion == 7 prediction.  The block
base pointer img sits at column col of the current row; entry i is initVal
when col is 0 and otherwise the pixel two positions to the left, which for
i greater than 1 is an entry of the block computed just before it.  rowAcc
holds the pixels of the current row already decoded (length col), acc the
entries of the block built so far. -/
def predictSameAux (initVal col : Nat) (rowAcc : List Nat) : Nat → Nat → List Nat → List Nat
  | 0, _, acc => acc
  | n + 1, i, acc =>
    predictSameAux initVal col rowAcc n (i + 1)
      (acc ++ [if col = 0 then initVal else (rowAcc ++ acc).getD (col + i - 2) 0])

/-- The 16 same-row reference pixels of a block. -/
def predictSame (initVal col : Nat) (rowAcc : List Nat) : List Nat :=
  predictSameAux initVal col rowAcc 16 0 []

/-- A pixel fetched from a reference row at a possibly negative index; the
source performs an unchecked access here, the model reads 0 out of bounds. -/
def getPix (l : List Nat) (idx : Int) : Nat :=
  if idx < 0 then 0 else l.getD idx.toNat 0

/-- Lines 217-237 of SrwDecoder.cpp: reference pixels for motion codes other
than 7, looked up one or two rows above. -/
def predictRef (motion row col : Nat) (imgUp imgUp2 : List Nat) : List Nat :=
  (List.range 16).map (fun i =>
    let off := motionOffset.getD motion 0
    let odd := (row + i) % 2 = 1
    let refIdx : Int :=
      if odd then (col : Int) + i + off
      else (col : Int) + i + off + (if i % 2 ≠ 0 then -1 else 1)
    let src := if odd then imgUp2 else imgUp
    if motionDoAverage.getD motion 0 ≠ 0 then
      (getPix src refIdx + getPix src (refIdx + 2) + 1) / 2
    else getPix src refIdx)

/-- Lines 246-267 of SrwDecoder.cpp: one step of the diffBits update loop:
select the context by color, derive the width from the 2-bit flag, shift the
context, then reject widths above bitDepth + 1.  The widths are unsigned
32-bit values kept below 2^32; the flag 2 decrement therefore wraps a zero
context value around to 2^32 - 1 and otherwise subtracts one, and the flag 1
increment carries an explicit mod 2^32. -/
def diffBitsStep (data : List Bool) (bitDepth row i flag : Nat)
    (ctx : List (Nat × Nat)) (p : Pump) :
    Except DecodeError (Nat × List (Nat × Nat) × Pump) := do
  let colornum := if row % 2 ≠ 0 then i >>> 1 else ((i >>> 1) + 2) % 3
  let c := ctx.getD colornum (0, 0)
  let (w, p₁) ← (if flag = 0 then Except.ok (c.1, p)
    else if flag = 1 then Except.ok ((c.1 + 1) % 4294967296, p)
    else if flag = 2 then Except.ok (if c.1 = 0 then 4294967295 else c.1 - 1, p)
    else getBits data p 4)
  let ctx₁ := ctx.set colornum (c.2, w)
  if w > bitDepth + 1 then .error .corruptDiffBits else .ok (w, ctx₁, p₁)

/-- The i-indexed loop of lines 246-267, over the remaining flags. -/
def diffBitsLoop (data : List Bool) (bitDepth row : Nat) :
    Nat → List Nat → List (Nat × Nat) → List Nat → Pump →
    Except DecodeError (List Nat × List (Nat × Nat) × Pump)
  | _, [], ctx, acc, p => .ok (acc, ctx, p)
  | i, f :: rest, ctx, acc, p => do
    let (w, ctx₁, p₁) ← diffBitsStep data bitDepth row i f ctx p
    diffBitsLoop data bitDepth row (i + 1) rest ctx₁ (acc ++ [w]) p₁

/-- Lines 242-244 of SrwDecoder.cpp: the four 2-bit flag reads. -/
def readFlags (data : List Bool) : Nat → List Nat → Pump →
    Except DecodeError (List Nat × Pump)
  | 0, acc, p => .ok (acc, p)
  | n + 1, acc, p => do
    let (f, p₁) ← getBits data p 2
    readFlags data n (acc ++ [f]) p₁

/-- The update path of the diffBits section: read four flags, then run the
width loop from i = 0 with an empty accumulator. -/
def diffBitsUpdate (data : List Bool) (bitDepth row : Nat)
    (ctx : List (Nat × Nat)) (p : Pump) :
    Except DecodeError (List Nat × List (Nat × Nat) × Pump) := do
  let (flags, p₁) ← readFlags data 4 [] p
  diffBitsLoop data bitDepth row 0 flags ctx [] p₁

/-- Lines 240-268 of SrwDecoder.cpp: the diffBits section of a block.  The
local array diffBits[4] is zero-initialized; it is updated through the flag
loop when OPT_SKIP is set (no header bit is read, mirroring the C++
short-circuit) or when the 1-bit block header reads 0, and otherwise stays
all zero with the context untouched. -/
def decodeDiffBits (data : List Bool) (optflags bitDepth row : Nat)
    (ctx : List (Nat × Nat)) (p : Pump) :
    Except DecodeError (List Nat × List (Nat × Nat) × Pump) :=
  if optflags &&& 1 ≠ 0 then diffBitsUpdate data bitDepth row ctx p
  else do
    let (b, p₁) ← getBits data p 1
    if b = 0 then diffBitsUpdate data bitDepth row ctx p₁
    else .ok ([0, 0, 0, 0], ctx, p₁)

/-- Lines 271-289 of SrwDecoder.cpp: read the residual of each of the 16
pixels, sign-extend it, apply the scale, and write it back clamped at the
permuted position.  Alongside the updated block the absolute bit interval
consumed by each residual read is returned (start position, length); this
trace is pure observation used to state which stream bits are residual
bits. -/
def applyResiduals (data : List Bool) (bits row : Nat) (scale : Int) (dB : List Nat) :
    Nat → Nat → List Nat → Pump →
    Except DecodeError (List Nat × List (Nat × Nat) × Pump)
  | 0, _, img, p => .ok (img, [], p)
  | n + 1, i, img, p => do
    let len := dB.getD (i >>> 2) 0
    let (raw, p₁) ← getBits data p len
    let d : Int := if len ≠ 0 ∧ raw >>> (len - 1) ≠ 0 then (raw : Int) - 2 ^ len else (raw : Int)
    let t := targetIndex row i
    let v := clampBits ((img.getD t 0 : Int) + reconstruct scale d) bits
    let (img₁, tr, p₂) ← applyResiduals data bits row scale dB n (i + 1) (img.set t v) p₁
    .ok (img₁, (8 * p.base + p.pos, len) :: tr, p₂)

/-- Lines 192-292 of SrwDecoder.cpp: decode one 16-pixel block: scale
update, motion read, the row 0 and 1 motion check, reference prediction,
diffBits section, and residual write-back.  Returns the finished block, the
motion, scale and context carried to the next block, the residual-read
trace, and the advanced pump. -/
def decodeBlock (data : List Bool) (bits optflags bitDepth initVal row col : Nat)
    (imgUp imgUp2 rowAcc : List Nat) (motion : Nat) (scale : Int)
    (ctx : List (Nat × Nat)) (p : Pump) :
    Except DecodeError (List Nat × Nat × Int × List (Nat × Nat) × List (Nat × Nat) × Pump) := do
  let (scale₁, p₁) ← updateScale data optflags col scale p
  let (motion₁, p₂) ← readMotion data optflags motion p₁
  if (row = 0 ∨ row = 1) ∧ motion₁ ≠ 7 then .error .corruptMotion
  else do
    let img ← (if motion₁ = 7 then Except.ok (predictSame initVal col rowAcc)
      else if row < 2 then Except.error DecodeError.corruptRefRow
      else Except.ok (predictRef motion₁ row col imgUp imgUp2))
    let (dB, ctx₁, p₃) ← decodeDiffBits data optflags bitDepth row ctx p₂
    let (img₁, tr, p₄) ← applyResiduals data bits row scale₁ dB 16 0 img p₃
    .ok (img₁, motion₁, scale₁, ctx₁, tr, p₄)

/-- The col loop of lines 192-292: decode the given number of 16-pixel
blocks left to right, appending each finished block to the row. -/
def decodeRowBlocks (data : List Bool) (bits optflags bitDepth initVal row : Nat)
    (imgUp imgUp2 : List Nat) :
    Nat → Nat → List Nat → Nat → Int → List (Nat × Nat) → Pump →
    Except DecodeError (List Nat × List (Nat × Nat) × Pump)
  | 0, _, rowAcc, _, _, _, p => .ok (rowAcc, [], p)
  | n + 1, col, rowAcc, motion, scale, ctx, p => do
    let (img, m₁, s₁, ctx₁, tr, p₁) ←
      decodeBlock data bits optflags bitDepth initVal row col imgUp imgUp2 rowAcc motion scale ctx p
    let (rowOut, tr₁, p₂) ←
      decodeRowBlocks data bits optflags bitDepth initVal row imgUp imgUp2
        n (col + 16) (rowAcc ++ img) m₁ s₁ ctx₁ p₁
    .ok (rowOut, tr ++ tr₁, p₂)

/-- Lines 175-295 of SrwDecoder.cpp, one row: a fresh pump at the aligned
base, per-line state reset (motion 7, scale 0, context 7 on the first two
rows and 4 below), the block loop, and the consumed byte count reported by
the pump (position rounded down to bytes, per the spec). -/
def decodeRow (data : List Bool) (bits optflags bitDepth initVal width row : Nat)
    (imgUp imgUp2 : List Nat) (base : Nat) :
    Except DecodeError (List Nat × Nat × List (Nat × Nat)) := do
  let ctx0 : List (Nat × Nat) :=
    List.replicate 3 (if row = 0 ∨ row = 1 then ((7 : Nat), (7 : Nat)) else (4, 4))
  let (pix, tr, p₁) ←
    decodeRowBlocks data bits optflags bitDepth initVal row imgUp imgUp2
      (width / 16) 0 [] 7 0 ctx0 ⟨base, 0⟩
  .ok (pix, p₁.pos / 8, tr)

/-- The row loop of lines 174-296: align the line offset to 16 bytes, decode
the row against the two rows above (indices clamped at 0 through Nat
subtraction, as in the source), and advance the offset by the bytes the row
consumed. -/
def decodeRowsAux (data : List Bool) (bits optflags bitDepth initVal width : Nat) :
    Nat → Nat → Nat → List (List Nat) → List (Nat × Nat) →
    Except DecodeError (List (List Nat) × List (Nat × Nat))
  | 0, _, _, acc, tr => .ok (acc, tr)
  | n + 1, row, lo, acc, tr => do
    let b := alignTo16 lo
    let (pix, consumed, tr₁) ←
      decodeRow data bits optflags bitDepth initVal width row
        (acc.getD (row - 1) []) (acc.getD (row - 2) []) b
    decodeRowsAux data bits optflags bitDepth initVal width
      n (row + 1) (b + consumed) (acc ++ [pix]) (tr ++ tr₁)

/-- SrwDecoder::decodeCompressed3, together with the residual-read trace:
parse the header, check the dimension envelope, then decode all rows
starting at the byte position the header reads end at. -/
def decodeCompressed3Full (data : List Bool) (bits : Nat) :
    Except DecodeError (List (List Nat) × List (Nat × Nat)) := do
  let (h, p) ← decodeHeader data ⟨0, 0⟩
  if h.width = 0 ∨ h.height = 0 ∨ h.width % 16 ≠ 0 ∨ 6496 < h.width ∨ 4336 < h.height then
    .error .badDimensions
  else
    decodeRowsAux data bits h.optflags h.bitDepth h.initVal h.width h.height 0 (p.pos / 8) [] []

/-- SrwDecoder::decodeCompressed3: the decoded raster, one list of pixels
per row. -/
def decodeCompressed3 (data : List Bool) (bits : Nat) :
    Except DecodeError (List (List Nat)) :=
  Except.map (·.1) (decodeCompressed3Full data bits)

/-- Flip the bit at index q (a no-op past the end of the buffer). -/
def flipAt (s : List Bool) (q : Nat) : List Bool := s.set q (!(s.getD q false))

/-- The bit at absolute index q lies inside one of the recorded residual
reads. -/
def isResidualBit (tr : List (Nat × Nat)) (q : Nat) : Prop :=
  ∃ il ∈ tr, il.1 ≤ q ∧ q < il.1 + il.2

instance (tr : List (Nat × Nat)) (q : Nat) : Decidable (isResidualBit tr q) := by
  unfold isResidualBit; infer_instance

/-- The number of 16-pixel blocks on which two rasters of equal layout
disagree. -/
def diffBlockCount (r1 r2 : List (List Nat)) : Nat :=
  (List.zip r1 r2).foldl
    (fun n rr =>
      n + ((List.range (rr.1.length / 16)).countP
        (fun b => !((rr.1.drop (16 * b)).take 16 == (rr.2.drop (16 * b)).take 16)))) 0

/-- A 17-byte input whose header declares width 16, height 1, bit depth 12,
optFlags 0 and initVal 1000, followed by one row consisting of a single
block: scale code 0, motion bit 1 (keep 7), diffBits header bit 1. -/
def streamA : List Bool := bitsOfBytes
  [0x00, 0x00, 0x0B, 0x00, 0x00, 0x10, 0x00, 0x01, 0x00, 0x00, 0x00, 0x00,
   0x00, 0x00, 0x03, 0xE8, 0x30]

/-- A 22-byte input whose header declares width 32, height 1, bit depth 12,
optFlags 0 and initVal 1000.  The first block selects residual width 1 for
all four quarters through escape flags and then reads 16 one-bit residuals,
all zero; the second block keeps motion 7 and takes the diffBits reuse
path. -/
def streamB : List Bool := bitsOfBytes
  [0x00, 0x00, 0x0B, 0x00, 0x00, 0x20, 0x00, 0x01, 0x00, 0x00, 0x00, 0x00,
   0x00, 0x00, 0x03, 0xE8, 0x2F, 0xF1, 0x11, 0x10, 0x00, 0x0C]

theorem and_fifteen_eq_mod (x : Nat) : x &&& 15 = x % 16 :=
  Nat.and_pow_two_sub_one_eq_mod x 4

theorem and_sixtythree_eq_mod (x : Nat) : x &&& 63 = x % 64 :=
  Nat.and_pow_two_sub_one_eq_mod x 6

theorem alignTo16_eq_ceil (lo : Nat) : alignTo16 lo = 16 * ((lo + 15) / 16) := by
  unfold alignTo16
  rw [and_fifteen_eq_mod]
  split <;> omega

theorem targetIndex_mod (row i : Nat) : targetIndex row i = targetIndex (row % 2) i := by
  rcases Nat.mod_two_eq_zero_or_one row with h | h <;> simp [targetIndex, h]

/-- The write-back targets of a block hit every index below 16. -/
theorem targetIndex_surj (row j : Nat) (hj : j < 16) :
    ∃ i, i < 16 ∧ targetIndex row i = j := by
  have he : ∀ i, targetIndex row i = targetIndex (row % 2) i := targetIndex_mod row
  rcases Nat.mod_two_eq_zero_or_one row with h | h <;>
    · simp only [he, h]
      interval_cases j <;> decide

/-- A closed form for diffBitsStep at the three pure flags. -/
theorem diffBitsStep_pure (data : List Bool) (bitDepth row i flag : Nat)
    (ctx : List (Nat × Nat)) (p : Pump) (hf : flag < 3) :
    diffBitsStep data bitDepth row i flag ctx p =
      (let colornum := if row % 2 ≠ 0 then i >>> 1 else ((i >>> 1) + 2) % 3
       let c := ctx.getD colornum (0, 0)
       let w := if flag = 0 then c.1
         else if flag = 1 then (c.1 + 1) % 4294967296
         else if c.1 = 0 then 4294967295 else c.1 - 1
       if w > bitDepth + 1 then .error .corruptDiffBits
       else .ok (w, ctx.set colornum (c.2, w), p)) := by
  have h3 : flag = 0 ∨ flag = 1 ∨ flag = 2 := by omega
  rcases h3 with rfl | rfl | rfl <;> rfl

/-- A closed form for diffBitsStep at the escape flag 3. -/
theorem diffBitsStep_flag3 (data : List Bool) (bitDepth row i : Nat)
    (ctx : List (Nat × Nat)) (p : Pump) :
    diffBitsStep data bitDepth row i 3 ctx p =
      (let colornum := if row % 2 ≠ 0 then i >>> 1 else ((i >>> 1) + 2) % 3
       let c := ctx.getD colornum (0, 0)
       getBits data p 4 >>= (fun wp =>
         if wp.1 > bitDepth + 1 then .error .corruptDiffBits
         else .ok (wp.1, ctx.set colornum (c.2, wp.1), wp.2))) := by
  cases h : getBits data p 4 with
  | error e => unfold diffBitsStep; simp only [h]; rfl
  | ok vp => unfold diffBitsStep; simp only [h]; rfl

/-- C9: for either row parity the 16 write-back target indices of a block
form a permutation of the indices 0 to 15, so each of the 16 pixels of a
block receives exactly one clamped residual write. -/
theorem c9_targetIndex_perm (row : Nat) :
    ((List.range 16).map (targetIndex row)).Perm (List.range 16) := by
  have he : targetIndex row = targetIndex (row % 2) := funext fun i => targetIndex_mod row i
  rw [he]
  rcases Nat.mod_two_eq_zero_or_one row with h | h <;> rw [h] <;> decide

/-- C10: a flag 2 decrement on a zero context width wraps around to
2^32 - 1, which always exceeds bitDepth + 1 (the header field being 4 bits,
bitDepth is at most 16), so the step necessarily fails with the
too-many-difference-bits error. -/
theorem c10_zero_width_decrement (data : List Bool) (bitDepth row i : Nat)
    (ctx : List (Nat × Nat)) (p : Pump)
    (hbd : bitDepth ≤ 16)
    (hctx : (ctx.getD (if row % 2 ≠ 0 then i >>> 1 else ((i >>> 1) + 2) % 3) (0, 0)).1 = 0) :
    diffBitsStep data bitDepth row i 2 ctx p = .error .corruptDiffBits ∧
      (4294967295 : Nat) = 2 ^ 32 - 1 ∧ bitDepth + 1 < 2 ^ 32 - 1 := by
  refine ⟨?_, by norm_num, by norm_num; omega⟩
  rw [diffBitsStep_pure data bitDepth row i 2 ctx p (by norm_num)]
  simp only [hctx]
  norm_num
  omega

/-- Witness for C10 at a concrete zero context. -/
theorem c10_witness :
    diffBitsStep [] 12 0 0 2 [(0, 0), (0, 0), (0, 0)] ⟨0, 0⟩ =
        .error .corruptDiffBits ∧
      (4294967295 : Nat) = 2 ^ 32 - 1 ∧ 12 + 1 < 2 ^ 32 - 1 :=
  c10_zero_width_decrement [] 12 0 0 [(0, 0), (0, 0), (0, 0)] ⟨0, 0⟩
    (by norm_num) (by decide)

/-- C1 counterexample: with OPT_SKIP unset and a diffBits header bit of 1,
a block whose previous block used the residual widths 1, 1, 1, 1 does not
reuse them: the widths come out as 0, 0, 0, 0 (the context is left alone and
the pump advances by exactly the one header bit). -/
theorem c1_counterexample :
    decodeDiffBits [true] 0 12 0 [(1, 1), (1, 1), (1, 1)] ⟨0, 0⟩ =
        .ok ([0, 0, 0, 0], [(1, 1), (1, 1), (1, 1)], ⟨0, 1⟩) ∧
      ([0, 0, 0, 0] : List Nat) ≠ [1, 1, 1, 1] := by
  constructor
  · rfl
  · decide

/-- C1 amended: whenever the diffBits header bit reads 1 while OPT_SKIP is
unset, no flags are read and the diffBitsMode context is not shifted, and
the residual widths used for the block are 0, 0, 0, 0 (the block-local
diffBits array is zero-initialized, not carried over from the previous
block); the pump advances by exactly the single header bit. -/
theorem c1_reuse_path_is_zero (data : List Bool) (optflags bitDepth row : Nat)
    (ctx : List (Nat × Nat)) (p p' : Pump) (b : Nat)
    (hskip : optflags &&& 1 = 0)
    (hread : getBits data p 1 = .ok (b, p'))
    (hb : b ≠ 0) :
    decodeDiffBits data optflags bitDepth row ctx p = .ok ([0, 0, 0, 0], ctx, p') := by
  unfold decodeDiffBits
  rw [if_neg (by simp [hskip])]
  rw [show (do
      let (b, p₁) ← getBits data p 1
      if b = 0 then diffBitsUpdate data bitDepth row ctx p₁
      else Except.ok ([0, 0, 0, 0], ctx, p₁) :
        Except DecodeError (List Nat × List (Nat × Nat) × Pump)) =
      (if b = 0 then diffBitsUpdate data bitDepth row ctx p'
       else Except.ok ([0, 0, 0, 0], ctx, p')) from by rw [hread]; rfl]
  rw [if_neg hb]

/-- Witness for C1: the amended statement at the concrete one-bit input. -/
theorem c1_witness :
    decodeDiffBits [true] 0 12 0 [(1, 1), (1, 1), (1, 1)] ⟨0, 0⟩ =
      .ok ([0, 0, 0, 0], [(1, 1), (1, 1), (1, 1)], ⟨0, 1⟩) :=
  c1_reuse_path_is_zero [true] 0 12 0 [(1, 1), (1, 1), (1, 1)] ⟨0, 0⟩ ⟨0, 1⟩ 1
    (by decide) (by rfl) (by decide)

theorem ok_bind {α β : Type} (a : α) (f : α → Except DecodeError β) :
    (Except.ok a >>= f) = f a := rfl

theorem error_bind {α β : Type} (e : DecodeError) (f : α → Except DecodeError β) :
    ((Except.error e : Except DecodeError α) >>= f) = Except.error e := rfl

/-- On a buffer of at least 128 bits the header decode succeeds, reads
exactly 128 bits, and leaves the pump at bit position 128. -/
theorem decodeHeader_eq (data : List Bool) (hl : 128 ≤ data.length) :
    decodeHeader data ⟨0, 0⟩ =
      .ok (⟨readVal data 20 4 + 1, readVal data 32 16, readVal data 48 16,
        readVal data 84 4, readVal data 114 14⟩, ⟨0, 128⟩) := by
  simp (disch := omega) only [decodeHeader, getBits, if_pos, ok_bind]

/-- C3 counterexample: on a concrete well-formed input the header reads end
at bit 128, which is 16 bytes, not the 17 bytes of fields the claim
asserts. -/
theorem c3_counterexample :
    decodeHeader streamA ⟨0, 0⟩ =
        .ok (⟨12, 16, 1, 0, 1000⟩, ⟨0, 128⟩) ∧
      (⟨0, 128⟩ : Pump).pos ≠ 17 * 8 := by
  exact ⟨by rfl, by decide⟩

/-- C3 amended: the header fields total 128 bits, exactly 16 bytes: on any
buffer of at least 128 bits the header decode succeeds with the pump at bit
128, the reported byte position is 16, which is 0 mod 16, and the first row
starts at that position unchanged (the alignment step skips nothing). -/
theorem c3_header_is_16_bytes (data : List Bool) (hl : 128 ≤ data.length) :
    decodeHeader data ⟨0, 0⟩ =
        .ok (⟨readVal data 20 4 + 1, readVal data 32 16, readVal data 48 16,
          readVal data 84 4, readVal data 114 14⟩, ⟨0, 128⟩) ∧
      (128 : Nat) = 16 * 8 ∧ (128 : Nat) / 8 = 16 ∧ ((128 : Nat) / 8) % 16 = 0 ∧
      alignTo16 (128 / 8) = 128 / 8 :=
  ⟨decodeHeader_eq data hl, by norm_num, by norm_num, by norm_num, by decide⟩

/-- Witness for C3: the amended statement at the concrete stream. -/
theorem c3_witness :
    decodeHeader streamA ⟨0, 0⟩ =
        .ok (⟨readVal streamA 20 4 + 1, readVal streamA 32 16, readVal streamA 48 16,
          readVal streamA 84 4, readVal streamA 114 14⟩, ⟨0, 128⟩) ∧
      (128 : Nat) = 16 * 8 ∧ (128 : Nat) / 8 = 16 ∧ ((128 : Nat) / 8) % 16 = 0 ∧
      alignTo16 (128 / 8) = 128 / 8 :=
  c3_header_is_16_bytes streamA (by decide)

/-- C5: the alignment used between rows is the round-up to the next
multiple of 16 bytes; each row decode is started from the aligned offset and
the next row continues from that base plus the bytes the row consumed; and
the first row starts at the post-header byte position 16, already aligned. -/
theorem c5_row_alignment :
    (∀ lo, alignTo16 lo = 16 * ((lo + 15) / 16)) ∧
      (∀ data bits optflags bitDepth initVal width n row lo acc tr,
        decodeRowsAux data bits optflags bitDepth initVal width (n + 1) row lo acc tr =
          (decodeRow data bits optflags bitDepth initVal width row
              (acc.getD (row - 1) []) (acc.getD (row - 2) []) (alignTo16 lo)).bind
            (fun rct =>
              decodeRowsAux data bits optflags bitDepth initVal width n (row + 1)
                (alignTo16 lo + rct.2.1) (acc ++ [rct.1]) (tr ++ rct.2.2))) ∧
      (∀ data h p', 128 ≤ data.length → decodeHeader data ⟨0, 0⟩ = .ok (h, p') →
        p'.pos / 8 = 16 ∧ alignTo16 (p'.pos / 8) = p'.pos / 8) := by
  refine ⟨alignTo16_eq_ceil, ?_, ?_⟩
  · intro data bits optflags bitDepth initVal width n row lo acc tr
    rfl
  · intro data h p' hl hd
    rw [decodeHeader_eq data hl] at hd
    injection hd with hd1
    injection hd1 with hd2 hd3
    subst hd3
    exact ⟨by norm_num, by decide⟩

/-- Witness for C5: concrete instances of all three components. -/
theorem c5_witness :
    alignTo16 21 = 16 * ((21 + 15) / 16) ∧
      ((⟨0, 128⟩ : Pump).pos / 8 = 16 ∧
        alignTo16 ((⟨0, 128⟩ : Pump).pos / 8) = (⟨0, 128⟩ : Pump).pos / 8) :=
  ⟨c5_row_alignment.1 21,
    c5_row_alignment.2.2 streamA ⟨12, 16, 1, 0, 1000⟩ ⟨0, 128⟩ (by decide) (by rfl)⟩

/-- When OPT_QP is set the scale section is skipped entirely: no bits are
consumed and the scale is unchanged. -/
theorem updateScale_qp (data : List Bool) (optflags col : Nat) (scale : Int) (p : Pump)
    (hqp : optflags &&& 4 ≠ 0) :
    updateScale data optflags col scale p = .ok (scale, p) := by
  unfold updateScale
  rw [if_neg (by simp [hqp])]

/-- C6: the scale state machine.  With OPT_QP unset and the column a
multiple of 64, a 2-bit code 0, 1 or 2 adds 0, -2 or +2 to the scale and a
code 3 replaces the scale by a fresh 12-bit read; with OPT_QP set no scale
bits are consumed, a block hands its incoming scale through unchanged, and
residual reconstruction at scale 0 is the identity. -/
theorem c6_scale_machine :
    (∀ data optflags col (scale : Int) p i p₂,
      optflags &&& 4 = 0 → col % 64 = 0 → getBits data p 2 = .ok (i, p₂) →
      (i < 3 → updateScale data optflags col scale p = .ok (scale + scalevals.getD i 0, p₂)) ∧
      (i = 3 → updateScale data optflags col scale p =
        (getBits data p₂ 12).bind (fun vp => .ok ((vp.1 : Int), vp.2)))) ∧
    (∀ data optflags col (scale : Int) p, optflags &&& 4 ≠ 0 →
      updateScale data optflags col scale p = .ok (scale, p)) ∧
    (∀ data bits optflags bitDepth initVal row col imgUp imgUp2 rowAcc motion
        (scale : Int) ctx p img m₁ s₁ ctx₁ tr p₁,
      optflags &&& 4 ≠ 0 →
      decodeBlock data bits optflags bitDepth initVal row col imgUp imgUp2 rowAcc
          motion scale ctx p = .ok (img, m₁, s₁, ctx₁, tr, p₁) →
      s₁ = scale) ∧
    (∀ d : Int, reconstruct 0 d = d) := by
  refine ⟨?_, updateScale_qp, ?_, ?_⟩
  · intro data optflags col scale p i p₂ hqp hcol hread
    have hcond : optflags &&& 4 = 0 ∧ col &&& 63 = 0 := by
      rw [and_sixtythree_eq_mod]
      exact ⟨hqp, hcol⟩
    constructor
    · intro hi
      unfold updateScale
      rw [if_pos hcond, hread]
      simp only [ok_bind]
      rw [if_pos hi]
    · intro hi
      subst hi
      unfold updateScale
      rw [if_pos hcond, hread]
      simp only [ok_bind]
      rw [if_neg (by omega)]
      cases hg : getBits data p₂ 12 with
      | error e => rfl
      | ok vp => rfl
  · intro data bits optflags bitDepth initVal row col imgUp imgUp2 rowAcc motion
      scale ctx p img m₁ s₁ ctx₁ tr p₁ hqp hd
    unfold decodeBlock at hd
    rw [updateScale_qp data optflags col scale p hqp] at hd
    simp only [ok_bind] at hd
    cases hm : readMotion data optflags motion p with
    | error e =>
      rw [hm, error_bind] at hd
      exact Except.noConfusion hd
    | ok mp =>
      rw [hm] at hd
      simp only [ok_bind] at hd
      by_cases hck : (row = 0 ∨ row = 1) ∧ mp.1 ≠ 7
      · rw [if_pos hck] at hd
        exact Except.noConfusion hd
      · rw [if_neg hck] at hd
        by_cases hm7 : mp.1 = 7
        · rw [if_pos hm7] at hd
          simp only [ok_bind] at hd
          cases hdb : decodeDiffBits data optflags bitDepth row ctx mp.2 with
          | error e =>
            rw [hdb, error_bind] at hd
            exact Except.noConfusion hd
          | ok dcp =>
            rw [hdb] at hd
            simp only [ok_bind] at hd
            cases har : applyResiduals data bits row scale dcp.1 16 0
                (predictSame initVal col rowAcc) dcp.2.2 with
            | error e =>
              rw [har, error_bind] at hd
              exact Except.noConfusion hd
            | ok itp =>
              rw [har] at hd
              simp only [ok_bind, Except.ok.injEq, Prod.mk.injEq] at hd
              exact hd.2.2.1.symm
        · rw [if_neg hm7] at hd
          by_cases hr2 : row < 2
          · rw [if_pos hr2] at hd
            rw [error_bind] at hd
            exact Except.noConfusion hd
          · rw [if_neg hr2] at hd
            simp only [ok_bind] at hd
            cases hdb : decodeDiffBits data optflags bitDepth row ctx mp.2 with
            | error e =>
              rw [hdb, error_bind] at hd
              exact Except.noConfusion hd
            | ok dcp =>
              rw [hdb] at hd
              simp only [ok_bind] at hd
              cases har : applyResiduals data bits row scale dcp.1 16 0
                  (predictRef mp.1 row col imgUp imgUp2) dcp.2.2 with
              | error e =>
                rw [har, error_bind] at hd
                exact Except.noConfusion hd
              | ok itp =>
                rw [har] at hd
                simp only [ok_bind, Except.ok.injEq, Prod.mk.injEq] at hd
                exact hd.2.2.1.symm
  · intro d
    unfold reconstruct
    ring

/-- Witness for C6: the scale machine at concrete inputs.  The stream 110000
0000000 holds the escape code 3 followed by a 12-bit zero. -/
theorem c6_witness :
    (updateScale (bitsOfBytes [0x00]) 0 0 5 ⟨0, 0⟩ =
        .ok (5 + scalevals.getD 0 0, ⟨0, 2⟩)) ∧
      (updateScale (bitsOfBytes [0xC0, 0x00]) 0 64 5 ⟨0, 0⟩ =
        (getBits (bitsOfBytes [0xC0, 0x00]) ⟨0, 2⟩ 12).bind
          (fun vp => .ok ((vp.1 : Int), vp.2))) ∧
      updateScale [] 4 0 5 ⟨0, 0⟩ = .ok (5, ⟨0, 0⟩) ∧
      reconstruct 0 (-3) = -3 := by
  refine ⟨?_, ?_, ?_, c6_scale_machine.2.2.2 (-3)⟩
  · exact (c6_scale_machine.1 (bitsOfBytes [0x00]) 0 0 5 ⟨0, 0⟩ 0 ⟨0, 2⟩
      (by decide) (by decide) (by rfl)).1 (by decide)
  · exact (c6_scale_machine.1 (bitsOfBytes [0xC0, 0x00]) 0 64 5 ⟨0, 0⟩ 3 ⟨0, 2⟩
      (by decide) (by decide) (by rfl)).2 (by rfl)
  · exact c6_scale_machine.2.1 [] 4 0 5 ⟨0, 0⟩ (by decide)

/-- C7: on rows 0 and 1, a parsed motion code other than 7 makes the block
fail with the corrupt-motion error, and a motion code 7 continues with the
same-row initVal prediction, so the above-row reference lookup is never
executed on the first two rows. -/
theorem c7_first_rows_motion :
    ∀ data bits optflags bitDepth initVal row col imgUp imgUp2 rowAcc motion
      (scale : Int) ctx p s₁ p₁ m₁ p₂,
    row = 0 ∨ row = 1 →
    updateScale data optflags col scale p = .ok (s₁, p₁) →
    readMotion data optflags motion p₁ = .ok (m₁, p₂) →
    (m₁ ≠ 7 → decodeBlock data bits optflags bitDepth initVal row col imgUp imgUp2
        rowAcc motion scale ctx p = .error .corruptMotion) ∧
    (m₁ = 7 → decodeBlock data bits optflags bitDepth initVal row col imgUp imgUp2
        rowAcc motion scale ctx p =
      (decodeDiffBits data optflags bitDepth row ctx p₂ >>= fun dcp =>
        applyResiduals data bits row s₁ dcp.1 16 0
            (predictSame initVal col rowAcc) dcp.2.2 >>= fun itp =>
          .ok (itp.1, m₁, s₁, dcp.2.1, itp.2.1, itp.2.2))) := by
  intro data bits optflags bitDepth initVal row col imgUp imgUp2 rowAcc motion
    scale ctx p s₁ p₁ m₁ p₂ hrow hus hrm
  constructor
  · intro hm7
    unfold decodeBlock
    rw [hus]
    simp only [ok_bind]
    rw [hrm]
    simp only [ok_bind]
    rw [if_pos ⟨hrow, hm7⟩]
  · intro hm7
    unfold decodeBlock
    rw [hus]
    simp only [ok_bind]
    rw [hrm]
    simp only [ok_bind]
    rw [if_neg (by simp [hm7])]
    rw [if_pos hm7]
    simp only [ok_bind]


/-- A value read from n bits is below 2^n. -/
theorem readVal_lt (data : List Bool) (start : Nat) : ∀ n, readVal data start n < 2 ^ n
  | 0 => by norm_num [readVal]
  | n + 1 => by
    have ih := readVal_lt data start n
    have h2 : (2 : Nat) ^ (n + 1) = 2 * 2 ^ n := by ring
    unfold readVal
    split <;> omega

/-- Any width a successful diffBits step returns is at most bitDepth + 1. -/
theorem diffBitsStep_ok_le (data : List Bool) (bitDepth row i flag : Nat)
    (ctx : List (Nat × Nat)) (p : Pump) (wcp : Nat × List (Nat × Nat) × Pump)
    (h : diffBitsStep data bitDepth row i flag ctx p = .ok wcp) :
    wcp.1 ≤ bitDepth + 1 := by
  rcases Nat.lt_or_ge flag 3 with hf | hf
  · rw [diffBitsStep_pure data bitDepth row i flag ctx p hf] at h
    simp only [] at h
    repeat' split at h
    all_goals try exact Except.noConfusion h
    all_goals (injection h with h1; subst h1; omega)
  · unfold diffBitsStep at h
    simp only [] at h
    rw [if_neg (by omega), if_neg (by omega), if_neg (by omega)] at h
    cases hg : getBits data p 4 with
    | error e =>
      rw [hg, error_bind] at h
      exact Except.noConfusion h
    | ok vp =>
      rw [hg] at h
      simp only [ok_bind] at h
      repeat' split at h
      all_goals try exact Except.noConfusion h
      all_goals (injection h with h1; subst h1; omega)

/-- If every accumulated width is within bound, every width a successful
diffBits loop returns is within bound. -/
theorem diffBitsLoop_ok_le (data : List Bool) (bitDepth row : Nat) :
    ∀ (flags : List Nat) (i : Nat) (ctx : List (Nat × Nat)) (acc : List Nat) (p : Pump)
      (ws : List Nat) (ctx' : List (Nat × Nat)) (p' : Pump),
      (∀ w ∈ acc, w ≤ bitDepth + 1) →
      diffBitsLoop data bitDepth row i flags ctx acc p = .ok (ws, ctx', p') →
      ∀ w ∈ ws, w ≤ bitDepth + 1
  | [], i, ctx, acc, p, ws, ctx', p', hacc, hl => by
    unfold diffBitsLoop at hl
    injection hl with h1
    injection h1 with h2 h3
    subst h2
    exact hacc
  | f :: rest, i, ctx, acc, p, ws, ctx', p', hacc, hl => by
    unfold diffBitsLoop at hl
    cases hs : diffBitsStep data bitDepth row i f ctx p with
    | error e =>
      rw [hs, error_bind] at hl
      exact Except.noConfusion hl
    | ok wcp =>
      rw [hs] at hl
      simp only [ok_bind] at hl
      have hw : wcp.1 ≤ bitDepth + 1 := diffBitsStep_ok_le data bitDepth row i f ctx p wcp hs
      refine diffBitsLoop_ok_le data bitDepth row rest (i + 1) wcp.2.1 (acc ++ [wcp.1])
        wcp.2.2 ws ctx' p' ?_ hl
      intro w hw1
      rcases List.mem_append.1 hw1 with hw2 | hw2
      · exact hacc w hw2
      · rw [List.mem_singleton.1 hw2]
        exact hw

/-- C8: when the diffBits update path runs, each width is derived from its
flag and the color context, the context is shifted with the newly computed
width, and the step fails with the corrupt-diff-bits error exactly when that
width exceeds bitDepth + 1; every width a successful update loop returns is
at most bitDepth + 1; the update path runs precisely when OPT_SKIP is set
(no header bit read) or the 1-bit block header reads 0; and the header
bitDepth, a 4-bit field plus one, lies between 1 and 16. -/
theorem c8_diff_width_check :
    (∀ data bitDepth row i flag (ctx : List (Nat × Nat)) (p : Pump), flag < 3 →
      (let colornum := if row % 2 ≠ 0 then i >>> 1 else ((i >>> 1) + 2) % 3
       let c := ctx.getD colornum (0, 0)
       let w := if flag = 0 then c.1
         else if flag = 1 then (c.1 + 1) % 4294967296
         else if c.1 = 0 then 4294967295 else c.1 - 1
       (w ≤ bitDepth + 1 →
         diffBitsStep data bitDepth row i flag ctx p = .ok (w, ctx.set colornum (c.2, w), p)) ∧
       (bitDepth + 1 < w →
         diffBitsStep data bitDepth row i flag ctx p = .error .corruptDiffBits))) ∧
    (∀ data bitDepth row i (ctx : List (Nat × Nat)) (p p₁ : Pump) (v : Nat),
      getBits data p 4 = .ok (v, p₁) →
      (let colornum := if row % 2 ≠ 0 then i >>> 1 else ((i >>> 1) + 2) % 3
       (v ≤ bitDepth + 1 →
         diffBitsStep data bitDepth row i 3 ctx p =
           .ok (v, ctx.set colornum ((ctx.getD colornum (0, 0)).2, v), p₁)) ∧
       (bitDepth + 1 < v →
         diffBitsStep data bitDepth row i 3 ctx p = .error .corruptDiffBits))) ∧
    (∀ data bitDepth row flags ctx p ws ctx' p',
      diffBitsLoop data bitDepth row 0 flags ctx [] p = .ok (ws, ctx', p') →
      ∀ w ∈ ws, w ≤ bitDepth + 1) ∧
    (∀ data optflags bitDepth row (ctx : List (Nat × Nat)) (p : Pump),
      optflags &&& 1 ≠ 0 →
      decodeDiffBits data optflags bitDepth row ctx p = diffBitsUpdate data bitDepth row ctx p) ∧
    (∀ data optflags bitDepth row (ctx : List (Nat × Nat)) (p p₁ : Pump),
      optflags &&& 1 = 0 →
      getBits data p 1 = .ok (0, p₁) →
      decodeDiffBits data optflags bitDepth row ctx p = diffBitsUpdate data bitDepth row ctx p₁) ∧
    (∀ data (h : Header) (p' : Pump), 128 ≤ data.length →
      decodeHeader data ⟨0, 0⟩ = .ok (h, p') → 1 ≤ h.bitDepth ∧ h.bitDepth ≤ 16) := by
  refine ⟨?_, ?_, ?_, ?_, ?_, ?_⟩
  · intro data bitDepth row i flag ctx p hf
    rw [diffBitsStep_pure data bitDepth row i flag ctx p hf]
    refine ⟨fun h => ?_, fun h => ?_⟩
    · simp only []
      rw [if_neg (not_lt.mpr h)]
    · simp only []
      rw [if_pos h]
  · intro data bitDepth row i ctx p p₁ v hg
    rw [diffBitsStep_flag3 data bitDepth row i ctx p]
    simp only []
    rw [hg]
    simp only [ok_bind]
    refine ⟨fun h => ?_, fun h => ?_⟩
    · rw [if_neg (not_lt.mpr h)]
    · rw [if_pos h]
  · intro data bitDepth row flags ctx p ws ctx' p' hl
    exact diffBitsLoop_ok_le data bitDepth row flags 0 ctx [] p ws ctx' p'
      (by intro w hw; exact absurd hw (List.not_mem_nil w)) hl
  · intro data optflags bitDepth row ctx p hskip
    unfold decodeDiffBits
    rw [if_pos hskip]
  · intro data optflags bitDepth row ctx p p₁ hskip hread
    unfold decodeDiffBits
    rw [if_neg (by simp [hskip]), hread]
    simp only [ok_bind]
    simp only [if_true, eq_self_iff_true, ite_true]
  · intro data h p' hl hd
    rw [decodeHeader_eq data hl] at hd
    injection hd with hd1
    injection hd1 with hd2 hd3
    subst hd2
    have := readVal_lt data 20 4
    constructor
    · norm_num
    · simp only []
      omega

/-- Witness for C8: the width check at concrete contexts: a width of 7 at
bitDepth 12 passes and shifts the context, a width of 15 fails, the skip
flag selects the update path without reading, and the concrete stream
header has bitDepth 12. -/
theorem c8_witness :
    diffBitsStep [] 12 0 0 0 [(7, 7), (6, 6), (5, 5)] ⟨0, 0⟩ =
        .ok (5, [(7, 7), (6, 6), (5, 5)].set 2 (5, 5), ⟨0, 0⟩) ∧
      diffBitsStep [] 12 0 0 0 [(7, 7), (6, 6), (15, 4)] ⟨0, 0⟩ =
        .error .corruptDiffBits ∧
      decodeDiffBits [] 1 12 0 [(7, 7), (7, 7), (7, 7)] ⟨0, 0⟩ =
        diffBitsUpdate [] 12 0 [(7, 7), (7, 7), (7, 7)] ⟨0, 0⟩ ∧
      (1 ≤ 12 ∧ (12 : Nat) ≤ 16) := by
  refine ⟨?_, ?_, ?_, ?_⟩
  · exact (c8_diff_width_check.1 [] 12 0 0 0 [(7, 7), (6, 6), (5, 5)] ⟨0, 0⟩
      (by norm_num)).1 (by norm_num)
  · exact (c8_diff_width_check.1 [] 12 0 0 0 [(7, 7), (6, 6), (15, 4)] ⟨0, 0⟩
      (by norm_num)).2 (by norm_num)
  · exact c8_diff_width_check.2.2.2.1 [] 1 12 0 [(7, 7), (7, 7), (7, 7)] ⟨0, 0⟩ (by decide)
  · have h12 : (⟨12, 16, 1, 0, 1000⟩ : Header).bitDepth = 12 := rfl
    have := c8_diff_width_check.2.2.2.2.2 streamA ⟨12, 16, 1, 0, 1000⟩ ⟨0, 128⟩
      (by decide) (by rfl)
    rw [h12] at this
    exact this

theorem clampBits_le (x : Int) (n : Nat) : clampBits x n ≤ 2 ^ n - 1 := by
  unfold clampBits
  have h1 : (1 : Nat) ≤ 2 ^ n := Nat.one_le_pow n 2 (by norm_num)
  have h2 : ((2 ^ n - 1 : Nat) : Int) = (2 : Int) ^ n - 1 := by push_cast [h1]; ring
  have h3 : min (max x 0) ((2 : Int) ^ n - 1) ≤ ((2 ^ n - 1 : Nat) : Int) := by
    rw [h2]; exact min_le_right _ _
  calc (min (max x 0) ((2 : Int) ^ n - 1)).toNat
      ≤ ((2 ^ n - 1 : Nat) : Int).toNat := Int.toNat_le_toNat h3
    _ = 2 ^ n - 1 := Int.toNat_natCast _

theorem getD_set_self (l : List Nat) (t v : Nat) (h : t < l.length) :
    (l.set t v).getD t 0 = v := by
  simp [List.getD_eq_getElem?_getD, List.getElem?_set_self', h]

theorem getD_set_ne (l : List Nat) (t j v : Nat) (h : t ≠ j) :
    (l.set t v).getD j 0 = l.getD j 0 := by
  simp [List.getD_eq_getElem?_getD, List.getElem?_set_ne h]

/-- The write-back target of any residual index below 16 is below 16. -/
theorem targetIndex_lt (row i : Nat) (hi : i < 16) : targetIndex row i < 16 := by
  have he : targetIndex row i = targetIndex (row % 2) i := targetIndex_mod row i
  rcases Nat.mod_two_eq_zero_or_one row with h | h <;>
    · rw [he, h]
      interval_cases i <;> decide

/-- The residual write-back keeps the block at 16 entries and leaves every
entry that receives a write clamped below 2^bits. -/
theorem applyResiduals_bound (data : List Bool) (bits row : Nat) (scale : Int)
    (dB : List Nat) :
    ∀ (n i : Nat) (img : List Nat) (p : Pump) (img' : List Nat)
      (tr : List (Nat × Nat)) (p' : Pump),
      img.length = 16 → i + n ≤ 16 →
      applyResiduals data bits row scale dB n i img p = .ok (img', tr, p') →
      img'.length = 16 ∧
        ∀ j : Nat,
          (img.getD j 0 ≤ 2 ^ bits - 1 ∨ ∃ k, i ≤ k ∧ k < i + n ∧ targetIndex row k = j) →
          img'.getD j 0 ≤ 2 ^ bits - 1
  | 0, i, img, p, img', tr, p', hlen, hin, h => by
    unfold applyResiduals at h
    injection h with h1
    injection h1 with h2 h3
    subst h2
    refine ⟨hlen, fun j hj => ?_⟩
    rcases hj with hj | ⟨k, hk1, hk2, _⟩
    · exact hj
    · omega
  | n + 1, i, img, p, img', tr, p', hlen, hin, h => by
    unfold applyResiduals at h
    simp only [] at h
    cases hg : getBits data p (dB.getD (i >>> 2) 0) with
    | error e =>
      rw [hg, error_bind] at h
      exact Except.noConfusion h
    | ok rp =>
      rw [hg] at h
      simp only [ok_bind] at h
      cases hrec : applyResiduals data bits row scale dB n (i + 1)
          (img.set (targetIndex row i)
            (clampBits ((img.getD (targetIndex row i) 0 : Int) + reconstruct scale
              (if dB.getD (i >>> 2) 0 ≠ 0 ∧ rp.1 >>> (dB.getD (i >>> 2) 0 - 1) ≠ 0 then
                (rp.1 : Int) - (2 : Int) ^ dB.getD (i >>> 2) 0 else (rp.1 : Int))) bits)) rp.2 with
      | error e =>
        rw [hrec, error_bind] at h
        exact Except.noConfusion h
      | ok itp =>
        rw [hrec] at h
        simp only [ok_bind, Except.ok.injEq, Prod.mk.injEq] at h
        obtain ⟨h1, h2, h3⟩ := h
        have hib := applyResiduals_bound data bits row scale dB n (i + 1) _ rp.2
          itp.1 itp.2.1 itp.2.2 (by rw [List.length_set]; exact hlen) (by omega) hrec
        rw [← h1]
        refine ⟨hib.1, fun j hj => ?_⟩
        apply hib.2 j
        have htlt : targetIndex row i < img.length := by
          rw [hlen]; exact targetIndex_lt row i (by omega)
        rcases hj with hj | ⟨k, hk1, hk2, hk3⟩
        · by_cases hjt : targetIndex row i = j
          · left
            rw [← hjt, getD_set_self _ _ _ htlt]
            exact clampBits_le _ _
          · left
            rw [getD_set_ne _ _ _ _ hjt]
            exact hj
        · by_cases hki : k = i
          · left
            rw [← hk3, hki, getD_set_self _ _ _ htlt]
            exact clampBits_le _ _
          · right
            exact ⟨k, by omega, by omega, hk3⟩

theorem predictSameAux_length (initVal col : Nat) (rowAcc : List Nat) :
    ∀ (n i : Nat) (acc : List Nat),
      (predictSameAux initVal col rowAcc n i acc).length = acc.length + n
  | 0, i, acc => by simp [predictSameAux]
  | n + 1, i, acc => by
    unfold predictSameAux
    rw [predictSameAux_length initVal col rowAcc n (i + 1) _]
    simp
    omega

theorem predictSame_length (initVal col : Nat) (rowAcc : List Nat) :
    (predictSame initVal col rowAcc).length = 16 := by
  unfold predictSame
  rw [predictSameAux_length]
  rfl

theorem predictRef_length (motion row col : Nat) (imgUp imgUp2 : List Nat) :
    (predictRef motion row col imgUp imgUp2).length = 16 := by
  unfold predictRef
  simp

/-- Every pixel of a successfully decoded block is at most 2^bits - 1. -/
theorem decodeBlock_bound (data : List Bool) (bits optflags bitDepth initVal row col : Nat)
    (imgUp imgUp2 rowAcc : List Nat) (motion : Nat) (scale : Int)
    (ctx : List (Nat × Nat)) (p : Pump) (img₁ : List Nat) (m₁ : Nat) (s₁ : Int)
    (ctx₁ : List (Nat × Nat)) (tr : List (Nat × Nat)) (p₁ : Pump)
    (h : decodeBlock data bits optflags bitDepth initVal row col imgUp imgUp2 rowAcc
      motion scale ctx p = .ok (img₁, m₁, s₁, ctx₁, tr, p₁)) :
    ∀ v ∈ img₁, v ≤ 2 ^ bits - 1 := by
  have main : ∀ (pred : List Nat), pred.length = 16 →
      ∀ (sc : Int) (dB : List Nat) (p₃ : Pump) (itp : List Nat × List (Nat × Nat) × Pump),
      applyResiduals data bits row sc dB 16 0 pred p₃ = .ok itp →
      ∀ v ∈ itp.1, v ≤ 2 ^ bits - 1 := by
    intro pred hplen sc dB p₃ itp har v hv
    have hb := applyResiduals_bound data bits row sc dB 16 0 pred p₃ itp.1 itp.2.1 itp.2.2
      hplen (by omega) (by rw [har])
    obtain ⟨j, hj, hjv⟩ := List.mem_iff_getElem.1 hv
    have hj16 : j < 16 := by rw [← hb.1]; exact hj
    obtain ⟨k, hk16, hkt⟩ := targetIndex_surj row j hj16
    have := hb.2 j (Or.inr ⟨k, by omega, by omega, hkt⟩)
    rw [List.getD_eq_getElem?_getD, List.getElem?_eq_getElem hj] at this
    simpa [hjv] using this
  unfold decodeBlock at h
  cases hus : updateScale data optflags col scale p with
  | error e =>
    rw [hus, error_bind] at h
    exact Except.noConfusion h
  | ok sp =>
    rw [hus] at h
    simp only [ok_bind] at h
    cases hm : readMotion data optflags motion sp.2 with
    | error e =>
      rw [hm, error_bind] at h
      exact Except.noConfusion h
    | ok mp =>
      rw [hm] at h
      simp only [ok_bind] at h
      by_cases hck : (row = 0 ∨ row = 1) ∧ mp.1 ≠ 7
      · rw [if_pos hck] at h
        exact Except.noConfusion h
      · rw [if_neg hck] at h
        by_cases hm7 : mp.1 = 7
        · rw [if_pos hm7] at h
          simp only [ok_bind] at h
          cases hdb : decodeDiffBits data optflags bitDepth row ctx mp.2 with
          | error e =>
            rw [hdb, error_bind] at h
            exact Except.noConfusion h
          | ok dcp =>
            rw [hdb] at h
            simp only [ok_bind] at h
            cases har : applyResiduals data bits row sp.1 dcp.1 16 0
                (predictSame initVal col rowAcc) dcp.2.2 with
            | error e =>
              rw [har, error_bind] at h
              exact Except.noConfusion h
            | ok itp =>
              rw [har] at h
              simp only [ok_bind, Except.ok.injEq, Prod.mk.injEq] at h
              have := main (predictSame initVal col rowAcc)
                (predictSame_length initVal col rowAcc) sp.1 dcp.1 dcp.2.2 itp har
              rw [← h.1]
              exact this
        · rw [if_neg hm7] at h
          by_cases hr2 : row < 2
          · rw [if_pos hr2, error_bind] at h
            exact Except.noConfusion h
          · rw [if_neg hr2] at h
            simp only [ok_bind] at h
            cases hdb : decodeDiffBits data optflags bitDepth row ctx mp.2 with
            | error e =>
              rw [hdb, error_bind] at h
              exact Except.noConfusion h
            | ok dcp =>
              rw [hdb] at h
              simp only [ok_bind] at h
              cases har : applyResiduals data bits row sp.1 dcp.1 16 0
                  (predictRef mp.1 row col imgUp imgUp2) dcp.2.2 with
              | error e =>
                rw [har, error_bind] at h
                exact Except.noConfusion h
              | ok itp =>
                rw [har] at h
                simp only [ok_bind, Except.ok.injEq, Prod.mk.injEq] at h
                have := main (predictRef mp.1 row col imgUp imgUp2)
                  (predictRef_length mp.1 row col imgUp imgUp2) sp.1 dcp.1 dcp.2.2 itp har
                rw [← h.1]
                exact this

/-- Every pixel appended by the block loop is at most 2^bits - 1. -/
theorem decodeRowBlocks_bound (data : List Bool)
    (bits optflags bitDepth initVal row : Nat) (imgUp imgUp2 : List Nat) :
    ∀ (n col : Nat) (rowAcc : List Nat) (motion : Nat) (scale : Int)
      (ctx : List (Nat × Nat)) (p : Pump) (out : List Nat)
      (tr : List (Nat × Nat)) (p' : Pump),
      (∀ v ∈ rowAcc, v ≤ 2 ^ bits - 1) →
      decodeRowBlocks data bits optflags bitDepth initVal row imgUp imgUp2
        n col rowAcc motion scale ctx p = .ok (out, tr, p') →
      ∀ v ∈ out, v ≤ 2 ^ bits - 1
  | 0, col, rowAcc, motion, scale, ctx, p, out, tr, p', hacc, h => by
    unfold decodeRowBlocks at h
    injection h with h1
    injection h1 with h2 h3
    subst h2
    exact hacc
  | n + 1, col, rowAcc, motion, scale, ctx, p, out, tr, p', hacc, h => by
    unfold decodeRowBlocks at h
    cases hb : decodeBlock data bits optflags bitDepth initVal row col imgUp imgUp2
        rowAcc motion scale ctx p with
    | error e =>
      rw [hb, error_bind] at h
      exact Except.noConfusion h
    | ok bout =>
      rw [hb] at h
      simp only [ok_bind] at h
      cases hr : decodeRowBlocks data bits optflags bitDepth initVal row imgUp imgUp2
          n (col + 16) (rowAcc ++ bout.1) bout.2.1 bout.2.2.1 bout.2.2.2.1
          bout.2.2.2.2.2 with
      | error e =>
        rw [hr, error_bind] at h
        exact Except.noConfusion h
      | ok rout =>
        rw [hr] at h
        simp only [ok_bind, Except.ok.injEq, Prod.mk.injEq] at h
        have hbb : ∀ v ∈ bout.1, v ≤ 2 ^ bits - 1 :=
          decodeBlock_bound data bits optflags bitDepth initVal row col imgUp imgUp2
            rowAcc motion scale ctx p bout.1 bout.2.1 bout.2.2.1 bout.2.2.2.1
            bout.2.2.2.2.1 bout.2.2.2.2.2 (by rw [hb])
        have := decodeRowBlocks_bound data bits optflags bitDepth initVal row imgUp imgUp2
          n (col + 16) (rowAcc ++ bout.1) bout.2.1 bout.2.2.1 bout.2.2.2.1
          bout.2.2.2.2.2 rout.1 rout.2.1 rout.2.2
          (by
            intro v hv
            rcases List.mem_append.1 hv with hv | hv
            · exact hacc v hv
            · exact hbb v hv)
          (by rw [hr])
        rw [← h.1]
        exact this

/-- Every pixel of a successfully decoded row is at most 2^bits - 1. -/
theorem decodeRow_bound (data : List Bool)
    (bits optflags bitDepth initVal width row : Nat) (imgUp imgUp2 : List Nat)
    (base : Nat) (pix : List Nat) (consumed : Nat) (tr : List (Nat × Nat))
    (h : decodeRow data bits optflags bitDepth initVal width row imgUp imgUp2 base =
      .ok (pix, consumed, tr)) :
    ∀ v ∈ pix, v ≤ 2 ^ bits - 1 := by
  unfold decodeRow at h
  simp only [] at h
  cases hr : decodeRowBlocks data bits optflags bitDepth initVal row imgUp imgUp2
      (width / 16) 0 [] 7 0
      (List.replicate 3 (if row = 0 ∨ row = 1 then ((7 : Nat), (7 : Nat)) else (4, 4)))
      ⟨base, 0⟩ with
  | error e =>
    rw [hr, error_bind] at h
    exact Except.noConfusion h
  | ok rout =>
    rw [hr] at h
    simp only [ok_bind, Except.ok.injEq, Prod.mk.injEq] at h
    have := decodeRowBlocks_bound data bits optflags bitDepth initVal row imgUp imgUp2
      (width / 16) 0 [] 7 0 _ ⟨base, 0⟩ rout.1 rout.2.1 rout.2.2
      (by intro v hv; exact absurd hv (List.not_mem_nil v)) (by rw [hr])
    rw [← h.1]
    exact this

/-- Every pixel of every successfully decoded row list is at most
2^bits - 1. -/
theorem decodeRowsAux_bound (data : List Bool)
    (bits optflags bitDepth initVal width : Nat) :
    ∀ (n row lo : Nat) (acc : List (List Nat)) (tr : List (Nat × Nat))
      (rows : List (List Nat)) (tr' : List (Nat × Nat)),
      (∀ r ∈ acc, ∀ v ∈ r, v ≤ 2 ^ bits - 1) →
      decodeRowsAux data bits optflags bitDepth initVal width n row lo acc tr =
        .ok (rows, tr') →
      ∀ r ∈ rows, ∀ v ∈ r, v ≤ 2 ^ bits - 1
  | 0, row, lo, acc, tr, rows, tr', hacc, h => by
    unfold decodeRowsAux at h
    injection h with h1
    injection h1 with h2 h3
    subst h2
    exact hacc
  | n + 1, row, lo, acc, tr, rows, tr', hacc, h => by
    unfold decodeRowsAux at h
    simp only [] at h
    cases hr : decodeRow data bits optflags bitDepth initVal width row
        (acc.getD (row - 1) []) (acc.getD (row - 2) []) (alignTo16 lo) with
    | error e =>
      rw [hr, error_bind] at h
      exact Except.noConfusion h
    | ok rct =>
      rw [hr] at h
      simp only [ok_bind] at h
      have hrow : ∀ v ∈ rct.1, v ≤ 2 ^ bits - 1 :=
        decodeRow_bound data bits optflags bitDepth initVal width row
          (acc.getD (row - 1) []) (acc.getD (row - 2) []) (alignTo16 lo)
          rct.1 rct.2.1 rct.2.2 (by rw [hr])
      refine decodeRowsAux_bound data bits optflags bitDepth initVal width
        n (row + 1) (alignTo16 lo + rct.2.1) (acc ++ [rct.1]) (tr ++ rct.2.2)
        rows tr' ?_ h
      intro r hrm
      rcases List.mem_append.1 hrm with hrm | hrm
      · exact hacc r hrm
      · rw [List.mem_singleton.1 hrm]
        exact hrow

/-- C4: on any input on which the decoder returns a raster, every pixel of
that raster is at most 2^bits - 1 for the dispatcher-supplied bit depth
(pixels are natural numbers, so they are also at least 0): every one of the
16 pixels of every block is written through clampBits in the residual
write-back, and the write-back targets cover the whole block. -/
theorem c4_pixels_clamped (data : List Bool) (bits : Nat) (raster : List (List Nat))
    (h : decodeCompressed3 data bits = .ok raster) :
    ∀ r ∈ raster, ∀ v ∈ r, v ≤ 2 ^ bits - 1 := by
  unfold decodeCompressed3 at h
  cases hf : decodeCompressed3Full data bits with
  | error e =>
    rw [hf] at h
    exact Except.noConfusion h
  | ok rt =>
    rw [hf] at h
    injection h with h1
    unfold decodeCompressed3Full at hf
    cases hh : decodeHeader data ⟨0, 0⟩ with
    | error e =>
      rw [hh, error_bind] at hf
      exact Except.noConfusion hf
    | ok hp =>
      rw [hh] at hf
      simp only [ok_bind] at hf
      by_cases hdim : hp.1.width = 0 ∨ hp.1.height = 0 ∨ hp.1.width % 16 ≠ 0 ∨
          6496 < hp.1.width ∨ 4336 < hp.1.height
      · rw [if_pos hdim] at hf
        exact Except.noConfusion hf
      · rw [if_neg hdim] at hf
        have := decodeRowsAux_bound data bits hp.1.optflags hp.1.bitDepth hp.1.initVal
          hp.1.width hp.1.height 0 (hp.2.pos / 8) [] [] rt.1 rt.2
          (by intro r hr; exact absurd hr (List.not_mem_nil r)) hf
        rw [← h1]
        exact this

/-- Witness for C4: pixel 1000 of the decoded raster of the concrete stream
is within the 12-bit bound. -/
theorem c4_witness :
    List.replicate 16 1000 ∈ [List.replicate 16 1000] ∧
      (1000 : Nat) ∈ List.replicate 16 1000 ∧ (1000 : Nat) ≤ 2 ^ 12 - 1 :=
  ⟨by decide, by decide,
    c4_pixels_clamped streamA 12 [List.replicate 16 1000] (by rfl)
      (List.replicate 16 1000) (by decide) 1000 (by decide)⟩

/-- Two buffers of equal length that agree on every bit position below m. -/
def agreeBelow (s1 s2 : List Bool) (m : Nat) : Prop :=
  s1.length = s2.length ∧ ∀ j, j < m → s1.getD j false = s2.getD j false

theorem readVal_agree (s1 s2 : List Bool) (m : Nat) (hag : agreeBelow s1 s2 m) :
    ∀ (n start : Nat), start + n ≤ m → readVal s1 start n = readVal s2 start n
  | 0, start, h => by simp [readVal]
  | n + 1, start, h => by
    unfold readVal
    rw [readVal_agree s1 s2 m hag n start (by omega)]
    unfold bitAt
    rw [hag.2 (start + n) (by omega)]

theorem getBits_mono (data : List Bool) (p : Pump) (n : Nat) (v : Nat) (p' : Pump)
    (h : getBits data p n = .ok (v, p')) : p'.base = p.base ∧ p.pos ≤ p'.pos := by
  unfold getBits at h
  split at h
  · injection h with h1
    injection h1 with h2 h3
    subst h3
    exact ⟨rfl, Nat.le_add_right _ _⟩
  · exact Except.noConfusion h

theorem getBits_frame (s1 s2 : List Bool) (m : Nat) (hag : agreeBelow s1 s2 m)
    (p : Pump) (n : Nat) (v : Nat) (p' : Pump)
    (h : getBits s1 p n = .ok (v, p')) (hend : 8 * p'.base + p'.pos ≤ m) :
    getBits s2 p n = .ok (v, p') := by
  unfold getBits at h ⊢
  split at h
  · rename_i hc
    injection h with h1
    injection h1 with h2 h3
    subst h3
    rw [if_pos (by rw [← hag.1]; exact hc)]
    rw [← h2]
    rw [readVal_agree s1 s2 m hag n (8 * p.base + p.pos) (by simp at hend; omega)]
  · exact Except.noConfusion h

theorem updateScale_mono (data : List Bool) (optflags col : Nat) (scale : Int)
    (p : Pump) (s' : Int) (p' : Pump)
    (h : updateScale data optflags col scale p = .ok (s', p')) :
    p'.base = p.base ∧ p.pos ≤ p'.pos := by
  unfold updateScale at h
  split at h
  · cases hg : getBits data p 2 with
    | error e =>
      rw [hg, error_bind] at h
      exact Except.noConfusion h
    | ok ip =>
      rw [hg] at h
      simp only [ok_bind] at h
      have hm1 := getBits_mono data p 2 ip.1 ip.2 (by rw [hg])
      split at h
      · injection h with h1
        injection h1 with h2 h3
        subst h3
        exact hm1
      · cases hg2 : getBits data ip.2 12 with
        | error e =>
          rw [hg2, error_bind] at h
          exact Except.noConfusion h
        | ok vp =>
          rw [hg2] at h
          simp only [ok_bind] at h
          injection h with h1
          injection h1 with h2 h3
          subst h3
          have hm2 := getBits_mono data ip.2 12 vp.1 vp.2 (by rw [hg2])
          exact ⟨by rw [hm2.1, hm1.1], by omega⟩
  · injection h with h1
    injection h1 with h2 h3
    subst h3
    exact ⟨rfl, Nat.le_refl _⟩

theorem readMotion_mono (data : List Bool) (optflags motion : Nat) (p : Pump)
    (m' : Nat) (p' : Pump)
    (h : readMotion data optflags motion p = .ok (m', p')) :
    p'.base = p.base ∧ p.pos ≤ p'.pos := by
  unfold readMotion at h
  split at h
  · cases hg : getBits data p 1 with
    | error e =>
      rw [hg, error_bind] at h
      exact Except.noConfusion h
    | ok bp =>
      rw [hg] at h
      simp only [ok_bind] at h
      injection h with h1
      injection h1 with h2 h3
      subst h3
      exact getBits_mono data p 1 bp.1 bp.2 (by rw [hg])
  · cases hg : getBits data p 1 with
    | error e =>
      rw [hg, error_bind] at h
      exact Except.noConfusion h
    | ok bp =>
      rw [hg] at h
      simp only [ok_bind] at h
      have hm1 := getBits_mono data p 1 bp.1 bp.2 (by rw [hg])
      split at h
      · have hm2 := getBits_mono data bp.2 3 m' p' h
        exact ⟨by rw [hm2.1, hm1.1], by omega⟩
      · injection h with h1
        injection h1 with h2 h3
        subst h3
        exact hm1

theorem readFlags_mono (data : List Bool) :
    ∀ (n : Nat) (acc : List Nat) (p : Pump) (fl : List Nat) (p' : Pump),
      readFlags data n acc p = .ok (fl, p') → p'.base = p.base ∧ p.pos ≤ p'.pos
  | 0, acc, p, fl, p', h => by
    unfold readFlags at h
    injection h with h1
    injection h1 with h2 h3
    subst h3
    exact ⟨rfl, Nat.le_refl _⟩
  | n + 1, acc, p, fl, p', h => by
    unfold readFlags at h
    cases hg : getBits data p 2 with
    | error e =>
      rw [hg, error_bind] at h
      exact Except.noConfusion h
    | ok fp =>
      rw [hg] at h
      simp only [ok_bind] at h
      have hm1 := getBits_mono data p 2 fp.1 fp.2 (by rw [hg])
      have hm2 := readFlags_mono data n (acc ++ [fp.1]) fp.2 fl p' h
      exact ⟨by rw [hm2.1, hm1.1], by omega⟩

theorem diffBitsStep_mono (data : List Bool) (bitDepth row i flag : Nat)
    (ctx : List (Nat × Nat)) (p : Pump) (wcp : Nat × List (Nat × Nat) × Pump)
    (h : diffBitsStep data bitDepth row i flag ctx p = .ok wcp) :
    wcp.2.2.base = p.base ∧ p.pos ≤ wcp.2.2.pos := by
  rcases Nat.lt_or_ge flag 3 with hf | hf
  · rw [diffBitsStep_pure data bitDepth row i flag ctx p hf] at h
    simp only [] at h
    repeat' split at h
    all_goals try exact Except.noConfusion h
    all_goals (injection h with h1; subst h1; exact ⟨rfl, Nat.le_refl _⟩)
  · unfold diffBitsStep at h
    simp only [] at h
    rw [if_neg (by omega), if_neg (by omega), if_neg (by omega)] at h
    cases hg : getBits data p 4 with
    | error e =>
      rw [hg, error_bind] at h
      exact Except.noConfusion h
    | ok vp =>
      rw [hg] at h
      simp only [ok_bind] at h
      have hm1 := getBits_mono data p 4 vp.1 vp.2 (by rw [hg])
      split at h
      · exact Except.noConfusion h
      · injection h with h1
        subst h1
        exact hm1

theorem diffBitsLoop_mono (data : List Bool) (bitDepth row : Nat) :
    ∀ (flags : List Nat) (i : Nat) (ctx : List (Nat × Nat)) (acc : List Nat) (p : Pump)
      (out : List Nat × List (Nat × Nat) × Pump),
      diffBitsLoop data bitDepth row i flags ctx acc p = .ok out →
      out.2.2.base = p.base ∧ p.pos ≤ out.2.2.pos
  | [], i, ctx, acc, p, out, h => by
    unfold diffBitsLoop at h
    injection h with h1
    subst h1
    exact ⟨rfl, Nat.le_refl _⟩
  | f :: rest, i, ctx, acc, p, out, h => by
    unfold diffBitsLoop at h
    cases hs : diffBitsStep data bitDepth row i f ctx p with
    | error e =>
      rw [hs, error_bind] at h
      exact Except.noConfusion h
    | ok wcp =>
      rw [hs] at h
      simp only [ok_bind] at h
      have hm1 := diffBitsStep_mono data bitDepth row i f ctx p wcp (by rw [hs])
      have hm2 := diffBitsLoop_mono data bitDepth row rest (i + 1) wcp.2.1
        (acc ++ [wcp.1]) wcp.2.2 out h
      exact ⟨by rw [hm2.1, hm1.1], by omega⟩

theorem diffBitsUpdate_mono (data : List Bool) (bitDepth row : Nat)
    (ctx : List (Nat × Nat)) (p : Pump) (out : List Nat × List (Nat × Nat) × Pump)
    (h : diffBitsUpdate data bitDepth row ctx p = .ok out) :
    out.2.2.base = p.base ∧ p.pos ≤ out.2.2.pos := by
  unfold diffBitsUpdate at h
  cases hf : readFlags data 4 [] p with
  | error e =>
    rw [hf, error_bind] at h
    exact Except.noConfusion h
  | ok flp =>
    rw [hf] at h
    simp only [ok_bind] at h
    have hm1 := readFlags_mono data 4 [] p flp.1 flp.2 (by rw [hf])
    have hm2 := diffBitsLoop_mono data bitDepth row flp.1 0 ctx [] flp.2 out h
    exact ⟨by rw [hm2.1, hm1.1], by omega⟩

theorem decodeDiffBits_mono (data : List Bool) (optflags bitDepth row : Nat)
    (ctx : List (Nat × Nat)) (p : Pump) (out : List Nat × List (Nat × Nat) × Pump)
    (h : decodeDiffBits data optflags bitDepth row ctx p = .ok out) :
    out.2.2.base = p.base ∧ p.pos ≤ out.2.2.pos := by
  unfold decodeDiffBits at h
  split at h
  · exact diffBitsUpdate_mono data bitDepth row ctx p out h
  · cases hg : getBits data p 1 with
    | error e =>
      rw [hg, error_bind] at h
      exact Except.noConfusion h
    | ok bp =>
      rw [hg] at h
      simp only [ok_bind] at h
      have hm1 := getBits_mono data p 1 bp.1 bp.2 (by rw [hg])
      split at h
      · have hm2 := diffBitsUpdate_mono data bitDepth row ctx bp.2 out h
        exact ⟨by rw [hm2.1, hm1.1], by omega⟩
      · injection h with h1
        subst h1
        exact hm1

theorem applyResiduals_mono (data : List Bool) (bits row : Nat) (scale : Int)
    (dB : List Nat) :
    ∀ (n i : Nat) (img : List Nat) (p : Pump)
      (out : List Nat × List (Nat × Nat) × Pump),
      applyResiduals data bits row scale dB n i img p = .ok out →
      out.2.2.base = p.base ∧ p.pos ≤ out.2.2.pos
  | 0, i, img, p, out, h => by
    unfold applyResiduals at h
    injection h with h1
    subst h1
    exact ⟨rfl, Nat.le_refl _⟩
  | n + 1, i, img, p, out, h => by
    unfold applyResiduals at h
    simp only [] at h
    cases hg : getBits data p (dB.getD (i >>> 2) 0) with
    | error e =>
      rw [hg, error_bind] at h
      exact Except.noConfusion h
    | ok rp =>
      rw [hg] at h
      simp only [ok_bind] at h
      have hm1 := getBits_mono data p (dB.getD (i >>> 2) 0) rp.1 rp.2 (by rw [hg])
      cases hrec : applyResiduals data bits row scale dB n (i + 1)
          (img.set (targetIndex row i)
            (clampBits ((img.getD (targetIndex row i) 0 : Int) + reconstruct scale
              (if dB.getD (i >>> 2) 0 ≠ 0 ∧ rp.1 >>> (dB.getD (i >>> 2) 0 - 1) ≠ 0 then
                (rp.1 : Int) - (2 : Int) ^ dB.getD (i >>> 2) 0 else (rp.1 : Int))) bits))
          rp.2 with
      | error e =>
        rw [hrec, error_bind] at h
        exact Except.noConfusion h
      | ok itp =>
        rw [hrec] at h
        simp only [ok_bind] at h
        injection h with h1
        subst h1
        have hm2 := applyResiduals_mono data bits row scale dB n (i + 1) _ rp.2 itp hrec
        refine ⟨?_, ?_⟩
        · show itp.2.2.base = p.base
          rw [hm2.1, hm1.1]
        · show p.pos ≤ itp.2.2.pos
          omega

theorem updateScale_frame (s1 s2 : List Bool) (m : Nat) (hag : agreeBelow s1 s2 m)
    (optflags col : Nat) (scale : Int) (p : Pump) (s' : Int) (p' : Pump)
    (h : updateScale s1 optflags col scale p = .ok (s', p'))
    (hend : 8 * p'.base + p'.pos ≤ m) :
    updateScale s2 optflags col scale p = .ok (s', p') := by
  unfold updateScale at h ⊢
  by_cases hc : optflags &&& 4 = 0 ∧ col &&& 63 = 0
  · rw [if_pos hc] at h ⊢
    cases hg : getBits s1 p 2 with
    | error e =>
      rw [hg, error_bind] at h
      exact Except.noConfusion h
    | ok ip =>
      rw [hg] at h
      simp only [ok_bind] at h
      split at h
      · rename_i hi
        injection h with h1
        injection h1 with h2 h3
        subst h2
        subst h3
        rw [getBits_frame s1 s2 m hag p 2 ip.1 ip.2 (by rw [hg]) hend]
        simp only [ok_bind]
        rw [if_pos hi]
      · rename_i hi
        cases hg2 : getBits s1 ip.2 12 with
        | error e =>
          rw [hg2, error_bind] at h
          exact Except.noConfusion h
        | ok vp =>
          rw [hg2] at h
          simp only [ok_bind] at h
          injection h with h1
          injection h1 with h2 h3
          subst h2
          subst h3
          have hm2 := getBits_mono s1 ip.2 12 vp.1 vp.2 (by rw [hg2])
          have hb1 : 8 * ip.2.base + ip.2.pos ≤ m := by
            rw [hm2.1] at hend
            omega
          rw [getBits_frame s1 s2 m hag p 2 ip.1 ip.2 (by rw [hg]) hb1]
          simp only [ok_bind]
          rw [if_neg hi]
          rw [getBits_frame s1 s2 m hag ip.2 12 vp.1 vp.2 (by rw [hg2]) hend]
          simp only [ok_bind]
  · rw [if_neg hc] at h ⊢
    exact h

theorem readMotion_frame (s1 s2 : List Bool) (m : Nat) (hag : agreeBelow s1 s2 m)
    (optflags motion : Nat) (p : Pump) (m' : Nat) (p' : Pump)
    (h : readMotion s1 optflags motion p = .ok (m', p'))
    (hend : 8 * p'.base + p'.pos ≤ m) :
    readMotion s2 optflags motion p = .ok (m', p') := by
  unfold readMotion at h ⊢
  by_cases hc : optflags &&& 2 ≠ 0
  · rw [if_pos hc] at h ⊢
    cases hg : getBits s1 p 1 with
    | error e =>
      rw [hg, error_bind] at h
      exact Except.noConfusion h
    | ok bp =>
      rw [hg] at h
      simp only [ok_bind] at h
      injection h with h1
      injection h1 with h2 h3
      subst h2
      subst h3
      rw [getBits_frame s1 s2 m hag p 1 bp.1 bp.2 (by rw [hg]) hend]
      simp only [ok_bind]
  · rw [if_neg hc] at h ⊢
    cases hg : getBits s1 p 1 with
    | error e =>
      rw [hg, error_bind] at h
      exact Except.noConfusion h
    | ok bp =>
      rw [hg] at h
      simp only [ok_bind] at h
      split at h
      · rename_i hb
        have hm2 := getBits_mono s1 bp.2 3 m' p' h
        have hb1 : 8 * bp.2.base + bp.2.pos ≤ m := by
          rw [hm2.1] at hend
          omega
        rw [getBits_frame s1 s2 m hag p 1 bp.1 bp.2 (by rw [hg]) hb1]
        simp only [ok_bind]
        rw [if_pos hb]
        exact getBits_frame s1 s2 m hag bp.2 3 m' p' h hend
      · rename_i hb
        injection h with h1
        injection h1 with h2 h3
        subst h2
        subst h3
        rw [getBits_frame s1 s2 m hag p 1 bp.1 bp.2 (by rw [hg]) hend]
        simp only [ok_bind]
        rw [if_neg hb]

theorem readFlags_frame (s1 s2 : List Bool) (m : Nat) (hag : agreeBelow s1 s2 m) :
    ∀ (n : Nat) (acc : List Nat) (p : Pump) (fl : List Nat) (p' : Pump),
      readFlags s1 n acc p = .ok (fl, p') → 8 * p'.base + p'.pos ≤ m →
      readFlags s2 n acc p = .ok (fl, p')
  | 0, acc, p, fl, p', h, hend => h
  | n + 1, acc, p, fl, p', h, hend => by
    unfold readFlags at h ⊢
    cases hg : getBits s1 p 2 with
    | error e =>
      rw [hg, error_bind] at h
      exact Except.noConfusion h
    | ok fp =>
      rw [hg] at h
      simp only [ok_bind] at h
      have hm2 := readFlags_mono s1 n (acc ++ [fp.1]) fp.2 fl p' h
      have hb1 : 8 * fp.2.base + fp.2.pos ≤ m := by
        rw [hm2.1] at hend
        omega
      rw [getBits_frame s1 s2 m hag p 2 fp.1 fp.2 (by rw [hg]) hb1]
      simp only [ok_bind]
      exact readFlags_frame s1 s2 m hag n (acc ++ [fp.1]) fp.2 fl p' h hend

theorem diffBitsStep_frame (s1 s2 : List Bool) (m : Nat) (hag : agreeBelow s1 s2 m)
    (bitDepth row i flag : Nat) (ctx : List (Nat × Nat)) (p : Pump)
    (out : Nat × List (Nat × Nat) × Pump)
    (h : diffBitsStep s1 bitDepth row i flag ctx p = .ok out)
    (hend : 8 * out.2.2.base + out.2.2.pos ≤ m) :
    diffBitsStep s2 bitDepth row i flag ctx p = .ok out := by
  rcases Nat.lt_or_ge flag 3 with hf | hf
  · rw [diffBitsStep_pure s1 bitDepth row i flag ctx p hf] at h
    rw [diffBitsStep_pure s2 bitDepth row i flag ctx p hf]
    exact h
  · unfold diffBitsStep at h ⊢
    simp only [] at h ⊢
    rw [if_neg (by omega), if_neg (by omega), if_neg (by omega)] at h ⊢
    cases hg : getBits s1 p 4 with
    | error e =>
      rw [hg, error_bind] at h
      exact Except.noConfusion h
    | ok vp =>
      rw [hg] at h
      simp only [ok_bind] at h
      split at h
      · exact Except.noConfusion h
      · rename_i hgt
        injection h with h1
        subst h1
        have hb1 : 8 * vp.2.base + vp.2.pos ≤ m := hend
        rw [getBits_frame s1 s2 m hag p 4 vp.1 vp.2 (by rw [hg]) hb1]
        simp only [ok_bind]
        rw [if_neg hgt]

theorem diffBitsLoop_frame (s1 s2 : List Bool) (m : Nat) (hag : agreeBelow s1 s2 m)
    (bitDepth row : Nat) :
    ∀ (flags : List Nat) (i : Nat) (ctx : List (Nat × Nat)) (acc : List Nat) (p : Pump)
      (out : List Nat × List (Nat × Nat) × Pump),
      diffBitsLoop s1 bitDepth row i flags ctx acc p = .ok out →
      8 * out.2.2.base + out.2.2.pos ≤ m →
      diffBitsLoop s2 bitDepth row i flags ctx acc p = .ok out
  | [], i, ctx, acc, p, out, h, hend => h
  | f :: rest, i, ctx, acc, p, out, h, hend => by
    unfold diffBitsLoop at h ⊢
    cases hs : diffBitsStep s1 bitDepth row i f ctx p with
    | error e =>
      rw [hs, error_bind] at h
      exact Except.noConfusion h
    | ok wcp =>
      rw [hs] at h
      simp only [ok_bind] at h
      have hm2 := diffBitsLoop_mono s1 bitDepth row rest (i + 1) wcp.2.1
        (acc ++ [wcp.1]) wcp.2.2 out h
      have hb1 : 8 * wcp.2.2.base + wcp.2.2.pos ≤ m := by
        rw [hm2.1] at hend
        omega
      rw [diffBitsStep_frame s1 s2 m hag bitDepth row i f ctx p wcp (by rw [hs]) hb1]
      simp only [ok_bind]
      exact diffBitsLoop_frame s1 s2 m hag bitDepth row rest (i + 1) wcp.2.1
        (acc ++ [wcp.1]) wcp.2.2 out h hend

theorem diffBitsUpdate_frame (s1 s2 : List Bool) (m : Nat) (hag : agreeBelow s1 s2 m)
    (bitDepth row : Nat) (ctx : List (Nat × Nat)) (p : Pump)
    (out : List Nat × List (Nat × Nat) × Pump)
    (h : diffBitsUpdate s1 bitDepth row ctx p = .ok out)
    (hend : 8 * out.2.2.base + out.2.2.pos ≤ m) :
    diffBitsUpdate s2 bitDepth row ctx p = .ok out := by
  unfold diffBitsUpdate at h ⊢
  cases hf : readFlags s1 4 [] p with
  | error e =>
    rw [hf, error_bind] at h
    exact Except.noConfusion h
  | ok flp =>
    rw [hf] at h
    simp only [ok_bind] at h
    have hm2 := diffBitsLoop_mono s1 bitDepth row flp.1 0 ctx [] flp.2 out h
    have hb1 : 8 * flp.2.base + flp.2.pos ≤ m := by
      rw [hm2.1] at hend
      omega
    rw [readFlags_frame s1 s2 m hag 4 [] p flp.1 flp.2 (by rw [hf]) hb1]
    simp only [ok_bind]
    exact diffBitsLoop_frame s1 s2 m hag bitDepth row flp.1 0 ctx [] flp.2 out h hend

theorem decodeDiffBits_frame (s1 s2 : List Bool) (m : Nat) (hag : agreeBelow s1 s2 m)
    (optflags bitDepth row : Nat) (ctx : List (Nat × Nat)) (p : Pump)
    (out : List Nat × List (Nat × Nat) × Pump)
    (h : decodeDiffBits s1 optflags bitDepth row ctx p = .ok out)
    (hend : 8 * out.2.2.base + out.2.2.pos ≤ m) :
    decodeDiffBits s2 optflags bitDepth row ctx p = .ok out := by
  unfold decodeDiffBits at h ⊢
  by_cases hc : optflags &&& 1 ≠ 0
  · rw [if_pos hc] at h ⊢
    exact diffBitsUpdate_frame s1 s2 m hag bitDepth row ctx p out h hend
  · rw [if_neg hc] at h ⊢
    cases hg : getBits s1 p 1 with
    | error e =>
      rw [hg, error_bind] at h
      exact Except.noConfusion h
    | ok bp =>
      rw [hg] at h
      simp only [ok_bind] at h
      split at h
      · rename_i hb
        have hm2 := diffBitsUpdate_mono s1 bitDepth row ctx bp.2 out h
        have hb1 : 8 * bp.2.base + bp.2.pos ≤ m := by
          rw [hm2.1] at hend
          omega
        rw [getBits_frame s1 s2 m hag p 1 bp.1 bp.2 (by rw [hg]) hb1]
        simp only [ok_bind]
        rw [if_pos hb]
        exact diffBitsUpdate_frame s1 s2 m hag bitDepth row ctx bp.2 out h hend
      · rename_i hb
        injection h with h1
        subst h1
        rw [getBits_frame s1 s2 m hag p 1 bp.1 bp.2 (by rw [hg]) hend]
        simp only [ok_bind]
        rw [if_neg hb]

theorem applyResiduals_frame (s1 s2 : List Bool) (m : Nat) (hag : agreeBelow s1 s2 m)
    (bits row : Nat) (scale : Int) (dB : List Nat) :
    ∀ (n i : Nat) (img : List Nat) (p : Pump)
      (out : List Nat × List (Nat × Nat) × Pump),
      applyResiduals s1 bits row scale dB n i img p = .ok out →
      8 * out.2.2.base + out.2.2.pos ≤ m →
      applyResiduals s2 bits row scale dB n i img p = .ok out
  | 0, i, img, p, out, h, hend => h
  | n + 1, i, img, p, out, h, hend => by
    unfold applyResiduals at h ⊢
    simp only [] at h ⊢
    cases hg : getBits s1 p (dB.getD (i >>> 2) 0) with
    | error e =>
      rw [hg, error_bind] at h
      exact Except.noConfusion h
    | ok rp =>
      rw [hg] at h
      simp only [ok_bind] at h
      cases hrec : applyResiduals s1 bits row scale dB n (i + 1)
          (img.set (targetIndex row i)
            (clampBits ((img.getD (targetIndex row i) 0 : Int) + reconstruct scale
              (if dB.getD (i >>> 2) 0 ≠ 0 ∧ rp.1 >>> (dB.getD (i >>> 2) 0 - 1) ≠ 0 then
                (rp.1 : Int) - (2 : Int) ^ dB.getD (i >>> 2) 0 else (rp.1 : Int))) bits))
          rp.2 with
      | error e =>
        rw [hrec, error_bind] at h
        exact Except.noConfusion h
      | ok itp =>
        rw [hrec] at h
        simp only [ok_bind] at h
        injection h with h1
        subst h1
        have hm2 := applyResiduals_mono s1 bits row scale dB n (i + 1) _ rp.2 itp hrec
        have hendi : 8 * itp.2.2.base + itp.2.2.pos ≤ m := hend
        have hb1 : 8 * rp.2.base + rp.2.pos ≤ m := by
          rw [hm2.1] at hendi
          omega
        rw [getBits_frame s1 s2 m hag p (dB.getD (i >>> 2) 0) rp.1 rp.2 (by rw [hg]) hb1]
        simp only [ok_bind]
        rw [applyResiduals_frame s1 s2 m hag bits row scale dB n (i + 1) _ rp.2 itp
          hrec hendi]
        rfl

theorem decodeBlock_frame (s1 s2 : List Bool) (m : Nat) (hag : agreeBelow s1 s2 m)
    (bits optflags bitDepth initVal row col : Nat) (imgUp imgUp2 rowAcc : List Nat)
    (motion : Nat) (scale : Int) (ctx : List (Nat × Nat)) (p : Pump)
    (out : List Nat × Nat × Int × List (Nat × Nat) × List (Nat × Nat) × Pump)
    (h : decodeBlock s1 bits optflags bitDepth initVal row col imgUp imgUp2 rowAcc
      motion scale ctx p = .ok out)
    (hend : 8 * out.2.2.2.2.2.base + out.2.2.2.2.2.pos ≤ m) :
    decodeBlock s2 bits optflags bitDepth initVal row col imgUp imgUp2 rowAcc
      motion scale ctx p = .ok out := by
  unfold decodeBlock at h ⊢
  cases hus : updateScale s1 optflags col scale p with
  | error e =>
    rw [hus, error_bind] at h
    exact Except.noConfusion h
  | ok sp =>
    rw [hus] at h
    simp only [ok_bind] at h
    cases hm : readMotion s1 optflags motion sp.2 with
    | error e =>
      rw [hm, error_bind] at h
      exact Except.noConfusion h
    | ok mp =>
      rw [hm] at h
      simp only [ok_bind] at h
      by_cases hck : (row = 0 ∨ row = 1) ∧ mp.1 ≠ 7
      · rw [if_pos hck] at h
        exact Except.noConfusion h
      · rw [if_neg hck] at h
        have core : ∀ (pred : List Nat),
            ((do
              let dcp ← decodeDiffBits s1 optflags bitDepth row ctx mp.2
              let itp ← applyResiduals s1 bits row sp.1 dcp.1 16 0 pred dcp.2.2
              Except.ok (itp.1, mp.1, sp.1, dcp.2.1, itp.2.1, itp.2.2)) = .ok out) →
            ((do
              let dcp ← decodeDiffBits s2 optflags bitDepth row ctx mp.2
              let itp ← applyResiduals s2 bits row sp.1 dcp.1 16 0 pred dcp.2.2
              Except.ok (itp.1, mp.1, sp.1, dcp.2.1, itp.2.1, itp.2.2)) = .ok out) ∧
            8 * mp.2.base + mp.2.pos ≤ m := by
          intro pred hcore
          cases hdb : decodeDiffBits s1 optflags bitDepth row ctx mp.2 with
          | error e =>
            rw [hdb, error_bind] at hcore
            exact Except.noConfusion hcore
          | ok dcp =>
            rw [hdb] at hcore
            simp only [ok_bind] at hcore
            cases har : applyResiduals s1 bits row sp.1 dcp.1 16 0 pred dcp.2.2 with
            | error e =>
              rw [har, error_bind] at hcore
              exact Except.noConfusion hcore
            | ok itp =>
              rw [har] at hcore
              simp only [ok_bind] at hcore
              injection hcore with h1
              subst h1
              have hmar := applyResiduals_mono s1 bits row sp.1 dcp.1 16 0 pred
                dcp.2.2 itp har
              have hmdb := decodeDiffBits_mono s1 optflags bitDepth row ctx mp.2 dcp
                (by rw [hdb])
              have hendi : 8 * itp.2.2.base + itp.2.2.pos ≤ m := hend
              have hbar : 8 * dcp.2.2.base + dcp.2.2.pos ≤ m := by
                rw [hmar.1] at hendi
                omega
              have hbdb : 8 * mp.2.base + mp.2.pos ≤ m := by
                rw [hmdb.1] at hbar
                omega
              refine ⟨?_, hbdb⟩
              rw [decodeDiffBits_frame s1 s2 m hag optflags bitDepth row ctx mp.2 dcp
                (by rw [hdb]) hbar]
              simp only [ok_bind]
              rw [applyResiduals_frame s1 s2 m hag bits row sp.1 dcp.1 16 0 pred
                dcp.2.2 itp har hendi]
              rfl
        by_cases hm7 : mp.1 = 7
        · rw [if_pos hm7] at h
          simp only [ok_bind] at h
          obtain ⟨hc2, hbmp⟩ := core (predictSame initVal col rowAcc) h
          have hbsp : 8 * sp.2.base + sp.2.pos ≤ m := by
            have hmm := readMotion_mono s1 optflags motion sp.2 mp.1 mp.2 (by rw [hm])
            rw [hmm.1] at hbmp
            omega
          rw [updateScale_frame s1 s2 m hag optflags col scale p sp.1 sp.2
            (by rw [hus]) hbsp]
          simp only [ok_bind]
          rw [readMotion_frame s1 s2 m hag optflags motion sp.2 mp.1 mp.2
            (by rw [hm]) hbmp]
          simp only [ok_bind]
          rw [if_neg hck, if_pos hm7]
          simp only [ok_bind]
          exact hc2
        · rw [if_neg hm7] at h
          by_cases hr2 : row < 2
          · rw [if_pos hr2, error_bind] at h
            exact Except.noConfusion h
          · rw [if_neg hr2] at h
            simp only [ok_bind] at h
            obtain ⟨hc2, hbmp⟩ := core (predictRef mp.1 row col imgUp imgUp2) h
            have hbsp : 8 * sp.2.base + sp.2.pos ≤ m := by
              have hmm := readMotion_mono s1 optflags motion sp.2 mp.1 mp.2 (by rw [hm])
              rw [hmm.1] at hbmp
              omega
            rw [updateScale_frame s1 s2 m hag optflags col scale p sp.1 sp.2
              (by rw [hus]) hbsp]
            simp only [ok_bind]
            rw [readMotion_frame s1 s2 m hag optflags motion sp.2 mp.1 mp.2
              (by rw [hm]) hbmp]
            simp only [ok_bind]
            rw [if_neg hck, if_neg hm7, if_neg hr2]
            simp only [ok_bind]
            exact hc2

theorem flipAt_getD_ne (s : List Bool) (q j : Nat) (h : q ≠ j) :
    (flipAt s q).getD j false = s.getD j false := by
  simp [flipAt, List.getD_eq_getElem?_getD, List.getElem?_set_ne h]

theorem flipAt_length (s : List Bool) (q : Nat) : (flipAt s q).length = s.length :=
  List.length_set s q _

/-- Flipping one bit leaves the buffers in agreement below any bound not
above the flipped position. -/
theorem flipAt_agreeBelow (s : List Bool) (q m : Nat) (hm : m ≤ q) :
    agreeBelow s (flipAt s q) m :=
  ⟨(flipAt_length s q).symm, fun j hj => (flipAt_getD_ne s q j (by omega)).symm⟩

/-- C2 counterexample: two streams with optFlags 0 that differ exactly in
bit 163, a residual bit of the first block, decode to rasters that differ
in both blocks of the row: the flipped residual lowers pixel 14 of block 0,
and block 1 predicts its pixels from pixels 14 and 15 of block 0, so the
change propagates into block 1. -/
theorem c2_counterexample :
    decodeHeader streamB ⟨0, 0⟩ = .ok (⟨12, 32, 1, 0, 1000⟩, ⟨0, 128⟩) ∧
      163 < streamB.length ∧
      (flipAt streamB 163).getD 163 false = !(streamB.getD 163 false) ∧
      (∀ j, j ≠ 163 → (flipAt streamB 163).getD j false = streamB.getD j false) ∧
      decodeCompressed3Full streamB 12 =
        .ok ([List.replicate 32 1000],
          [(156, 1), (157, 1), (158, 1), (159, 1), (160, 1), (161, 1), (162, 1),
           (163, 1), (164, 1), (165, 1), (166, 1), (167, 1), (168, 1), (169, 1),
           (170, 1), (171, 1), (174, 0), (174, 0), (174, 0), (174, 0), (174, 0),
           (174, 0), (174, 0), (174, 0), (174, 0), (174, 0), (174, 0), (174, 0),
           (174, 0), (174, 0), (174, 0), (174, 0)]) ∧
      isResidualBit
        [(156, 1), (157, 1), (158, 1), (159, 1), (160, 1), (161, 1), (162, 1),
         (163, 1), (164, 1), (165, 1), (166, 1), (167, 1), (168, 1), (169, 1),
         (170, 1), (171, 1), (174, 0), (174, 0), (174, 0), (174, 0), (174, 0),
         (174, 0), (174, 0), (174, 0), (174, 0), (174, 0), (174, 0), (174, 0),
         (174, 0), (174, 0), (174, 0), (174, 0)] 163 ∧
      decodeCompressed3 (flipAt streamB 163) 12 =
        .ok [[1000, 1000, 1000, 1000, 1000, 1000, 1000, 1000, 1000, 1000, 1000,
          1000, 1000, 1000, 999, 1000, 999, 1000, 999, 1000, 999, 1000, 999, 1000,
          999, 1000, 999, 1000, 999, 1000, 999, 1000]] ∧
      diffBlockCount [List.replicate 32 1000]
        [[1000, 1000, 1000, 1000, 1000, 1000, 1000, 1000, 1000, 1000, 1000,
          1000, 1000, 1000, 999, 1000, 999, 1000, 999, 1000, 999, 1000, 999, 1000,
          999, 1000, 999, 1000, 999, 1000, 999, 1000]] = 2 ∧
      1 < 2 := by
  refine ⟨by rfl, by decide, by decide, ?_, by rfl, by decide, by rfl, by decide,
    by decide⟩
  intro j hj
  exact flipAt_getD_ne streamB 163 j (Ne.symm hj)

/-- C2 amended: flipping a single bit can change more than one block of the
raster (see the counterexample: a residual-bit flip propagates through the
same-row prediction into every later block of its row), but the damage is
confined to blocks decoded at or after the flipped position: any block
whose decode finishes at a bit position at or below the flipped bit decodes
to exactly the same pixels, state and trace on both streams. -/
theorem c2_flip_block_locality (s : List Bool) (q : Nat)
    (bits optflags bitDepth initVal row col : Nat) (imgUp imgUp2 rowAcc : List Nat)
    (motion : Nat) (scale : Int) (ctx : List (Nat × Nat)) (p : Pump)
    (out : List Nat × Nat × Int × List (Nat × Nat) × List (Nat × Nat) × Pump)
    (h : decodeBlock s bits optflags bitDepth initVal row col imgUp imgUp2 rowAcc
      motion scale ctx p = .ok out)
    (hend : 8 * out.2.2.2.2.2.base + out.2.2.2.2.2.pos ≤ q) :
    decodeBlock (flipAt s q) bits optflags bitDepth initVal row col imgUp imgUp2
      rowAcc motion scale ctx p = .ok out :=
  decodeBlock_frame s (flipAt s q) q (flipAt_agreeBelow s q q (Nat.le_refl q))
    bits optflags bitDepth initVal row col imgUp imgUp2 rowAcc motion scale ctx p
    out h hend

/-- Witness for C2: a concrete one-block decode ending at bit 4 is
unchanged by flipping bit 9. -/
theorem c2_witness :
    decodeBlock (flipAt (bitsOfBytes [0x30, 0x00]) 9) 12 0 12 1000 0 0 [] [] []
        7 0 [(7, 7), (7, 7), (7, 7)] ⟨0, 0⟩ =
      .ok (List.replicate 16 1000, 7, 0, [(7, 7), (7, 7), (7, 7)],
        List.replicate 16 (4, 0), ⟨0, 4⟩) :=
  c2_flip_block_locality (bitsOfBytes [0x30, 0x00]) 9 12 0 12 1000 0 0 [] [] []
    7 0 [(7, 7), (7, 7), (7, 7)] ⟨0, 0⟩
    (List.replicate 16 1000, 7, 0, [(7, 7), (7, 7), (7, 7)],
      List.replicate 16 (4, 0), ⟨0, 4⟩) (by rfl) (by decide)

/-- Witness for C7: a concrete row 0 block whose motion parse yields 3 is
rejected, and one whose header bit keeps motion 7 proceeds. -/
theorem c7_witness :
    decodeBlock [false, false, false, false, true, true] 12 0 12 1000 0 0 [] [] []
        7 0 [(7, 7), (7, 7), (7, 7)] ⟨0, 0⟩ = .error .corruptMotion := by
  exact (c7_first_rows_motion [false, false, false, false, true, true] 12 0 12 1000
      0 0 [] [] [] 7 0 [(7, 7), (7, 7), (7, 7)] ⟨0, 0⟩ 0 ⟨0, 2⟩ 3 ⟨0, 6⟩
      (Or.inl rfl) (by rfl) (by rfl)).1 (by decide)

end SrwV3
